import Mathlib

/-!
# Verification of the pyaixi CTW / MC-AIXI-CTW core

Shallow embedding of `pyaixi/prediction/ctw_context_tree.py`, `util.py`,
`agents/mc_aixi_ctw.py` and `pyaixi/search/monte_carlo_search_tree.py`.

Modelling conventions:

* Symbols are bits; the Python code stores them as the integers 0/1, here
  they are `Bool` (`false` = 0, `true` = 1).  The `children` dictionary of a
  node is keyed by 0/1 only, so it becomes the two fields `child0`/`child1`.
* The Python code stores log-space floats `log_kt` and `log_probability`.
  The embedding carries the exact linear-space values `kt = exp(log_kt)` and
  `prob = exp(log_probability)` as rationals; every log-space operation of
  the source is the exact image of a rational one:
  `log_kt += log m` is `kt := kt * m`, `log_kt -= log m` is `kt := kt / m`,
  and `log(1/2) + a + log1p(exp(b - a))` (with `a = max`, `b = min`, used
  only for float stability) is exactly `log ((kt + childProduct) / 2)`.
* `tree_size` is a plain integer counter, updated incrementally exactly as
  in the source (`+1` per node created in `update_context`, `-= size` per
  subtree deleted in `CTWContextTreeNode.revert`).
-/

/-- A node of the CTW context tree (`CTWContextTreeNode` in the source):
symbol counts for 0 and 1, the KT estimate `kt` (the exact value of
`exp(log_kt)`), the weighted probability `prob` (the exact value of
`exp(log_probability)`), and the two optional children. -/
inductive CTWContextTreeNode : Type where
  | mk (c0 c1 : Nat) (kt prob : ℚ) (child0 child1 : Option CTWContextTreeNode)

/-- Count of zero symbols at this node (`symbol_count[0]`). -/
def CTWContextTreeNode.c0 : CTWContextTreeNode → Nat
  | .mk a _ _ _ _ _ => a

/-- Count of one symbols at this node (`symbol_count[1]`). -/
def CTWContextTreeNode.c1 : CTWContextTreeNode → Nat
  | .mk _ b _ _ _ _ => b

/-- The exact linear-space KT estimate (`exp(log_kt)`). -/
def CTWContextTreeNode.kt : CTWContextTreeNode → ℚ
  | .mk _ _ k _ _ _ => k

/-- The exact linear-space weighted probability (`exp(log_probability)`). -/
def CTWContextTreeNode.prob : CTWContextTreeNode → ℚ
  | .mk _ _ _ p _ _ => p

/-- The child under symbol 0 (`children.get(0)`). -/
def CTWContextTreeNode.child0 : CTWContextTreeNode → Option CTWContextTreeNode
  | .mk _ _ _ _ x _ => x

/-- The child under symbol 1 (`children.get(1)`). -/
def CTWContextTreeNode.child1 : CTWContextTreeNode → Option CTWContextTreeNode
  | .mk _ _ _ _ _ y => y

/-- `symbol_count[symbol]`. -/
def CTWContextTreeNode.symbolCount (n : CTWContextTreeNode) (s : Bool) : Nat :=
  if s then n.c1 else n.c0

/-- `children.get(symbol)`. -/
def CTWContextTreeNode.child (n : CTWContextTreeNode) (s : Bool) :
    Option CTWContextTreeNode :=
  if s then n.child1 else n.child0

/-- Replace the child under symbol `s` (`children[symbol] = node`). -/
def CTWContextTreeNode.setChild (n : CTWContextTreeNode) (s : Bool)
    (c : Option CTWContextTreeNode) : CTWContextTreeNode :=
  if s then .mk n.c0 n.c1 n.kt n.prob n.child0 c
  else .mk n.c0 n.c1 n.kt n.prob c n.child1

/-- `visits()`: the total symbol count of the node. -/
def CTWContextTreeNode.visits (n : CTWContextTreeNode) : Nat :=
  n.c0 + n.c1

/-- `is_leaf_node()`: the node has no children. -/
def CTWContextTreeNode.isLeafNode (n : CTWContextTreeNode) : Bool :=
  n.child0.isNone && n.child1.isNone

/-- `log_kt_multiplier(symbol)` in linear space:
`(symbol_count[symbol] + 1/2) / (visits() + 1)`. -/
def CTWContextTreeNode.ktMultiplier (n : CTWContextTreeNode) (s : Bool) : ℚ :=
  ((n.symbolCount s : ℚ) + 1/2) / ((n.visits : ℚ) + 1)

/-- The product of the children's weighted probabilities; an absent child
contributes the factor 1 (log contribution 0, as in the source's `fsum`
over `children.values()`). -/
def CTWContextTreeNode.childProbProduct (n : CTWContextTreeNode) : ℚ :=
  (match n.child0 with | none => 1 | some c => c.prob) *
  (match n.child1 with | none => 1 | some c => c.prob)

/-- `update_log_probability()` in linear space: a leaf's weighted
probability is its KT estimate, an inner node's is
`(kt + childProbProduct) / 2`, the exact value of the source's
`log(1/2) + a + log1p(exp(b - a))` with `{a, b} = {log_kt, Σ child log_w}`. -/
def CTWContextTreeNode.updateLogProbability (n : CTWContextTreeNode) :
    CTWContextTreeNode :=
  if n.isLeafNode then .mk n.c0 n.c1 n.kt n.kt n.child0 n.child1
  else .mk n.c0 n.c1 n.kt ((n.kt + n.childProbProduct) / 2) n.child0 n.child1

/-- `size()`: the node count of the subtree rooted here. -/
def CTWContextTreeNode.size : CTWContextTreeNode → Nat
  | .mk _ _ _ _ none none => 1
  | .mk _ _ _ _ (some a) none => 1 + a.size
  | .mk _ _ _ _ none (some b) => 1 + b.size
  | .mk _ _ _ _ (some a) (some b) => 1 + a.size + b.size

/-- `CTWContextTreeNode.update(symbol)`: multiply the KT estimate by the
update multiplier (computed from the pre-increment counts), recompute the
weighted probability, then increment the count. -/
def CTWContextTreeNode.updateNode (n : CTWContextTreeNode) (s : Bool) :
    CTWContextTreeNode :=
  let n1 : CTWContextTreeNode :=
    .mk n.c0 n.c1 (n.kt * n.ktMultiplier s) n.prob n.child0 n.child1
  let n2 := n1.updateLogProbability
  if s then .mk n2.c0 (n2.c1 + 1) n2.kt n2.prob n2.child0 n2.child1
  else .mk (n2.c0 + 1) n2.c1 n2.kt n2.prob n2.child0 n2.child1

/-- `CTWContextTreeNode.revert(symbol)`: decrement the count for `s`
(`count - 1 if count > 1 else 0`, which is `Nat` subtraction), delete the
child under `s` if it now has zero visits (returning the size of the
deleted subtree), divide the KT estimate by the multiplier computed from
the post-decrement counts, and recompute the weighted probability. -/
def CTWContextTreeNode.revertNode (n : CTWContextTreeNode) (s : Bool) :
    CTWContextTreeNode × Nat :=
  let a0 := if s then n.c0 else n.c0 - 1
  let a1 := if s then n.c1 - 1 else n.c1
  let nDec : CTWContextTreeNode := .mk a0 a1 n.kt n.prob n.child0 n.child1
  let del : Option CTWContextTreeNode × Nat :=
    match nDec.child s with
    | some c => if c.visits = 0 then (none, c.size) else (some c, 0)
    | none => (nDec.child s, 0)
  let nDel := nDec.setChild s del.1
  let nKt : CTWContextTreeNode :=
    .mk nDel.c0 nDel.c1 (nDel.kt / nDel.ktMultiplier s) nDel.prob
      nDel.child0 nDel.child1
  (nKt.updateLogProbability, del.2)

/-- A freshly constructed node (`CTWContextTreeNode.__init__`): zero counts,
`log_kt = log_probability = 0` (linear-space values 1), no children. -/
def freshNode : CTWContextTreeNode := .mk 0 0 1 1 none none

/-- The CTW context tree (`CTWContextTree` in the source): maximum depth,
bit history (append at the right end, as the Python list), root node, and
the incrementally maintained node counter `tree_size`.  The `context`
scratch list is not state: it is recomputed before each use, which the
embedding does inside `update1`/`revert1`. -/
structure CTWContextTree where
  depth : Nat
  history : List Bool
  root : CTWContextTreeNode
  tree_size : ℤ

/-- `CTWContextTree.__init__(depth)`. -/
def CTWContextTree.create (depth : Nat) : CTWContextTree :=
  ⟨depth, [], freshNode, 1⟩

/-- The walk of `update_context()` fused with the node updates of
`CTWContextTree.update` for one symbol, for trees of depth ≥ 1.

Arguments: the observed symbol `s`, the current node, the remaining
context keys (the history read newest-first, as `reversed(self.history)`),
and the number of path levels still to walk below the current node
(`depth - current depth`).  Returns the new node and the number of nodes
created.  The node at budget 0 (context index `depth`) is created by its
parent but excluded from `context[:depth]`, hence never updated; deeper
nodes are updated children-first, which is the source's iteration over
`reversed(self.context[:self.depth])`. -/
def updateContextUpdate (s : Bool) :
    CTWContextTreeNode → List Bool → Nat → CTWContextTreeNode × Nat
  | n, _, 0 => (n, 0)
  | n, [], _ + 1 => (n.updateNode s, 0)
  | n, k :: ks, d + 1 =>
    let cPair : CTWContextTreeNode × Nat :=
      match n.child k with
      | some c => (c, 0)
      | none => (freshNode, 1)
    let rec2 := updateContextUpdate s cPair.1 ks d
    let n1 := n.setChild k (some rec2.1)
    (n1.updateNode s, cPair.2 + rec2.2)

/-- The walk of `update_context()` fused with the node reverts of
`CTWContextTree.revert` for one popped symbol, for trees of depth ≥ 1.
Returns the new node, the number of nodes created while rebuilding the
context path, and the total size of subtrees deleted by the node-level
reverts.  Like `updateContextUpdate`, the node at budget 0 is not
reverted, and reverts run children-first. -/
def updateContextRevert (s : Bool) :
    CTWContextTreeNode → List Bool → Nat → CTWContextTreeNode × Nat × Nat
  | n, _, 0 => (n, 0, 0)
  | n, [], _ + 1 =>
    let r := n.revertNode s
    (r.1, 0, r.2)
  | n, k :: ks, d + 1 =>
    let cPair : CTWContextTreeNode × Nat :=
      match n.child k with
      | some c => (c, 0)
      | none => (freshNode, 1)
    let rec2 := updateContextRevert s cPair.1 ks d
    let n1 := n.setChild k (some rec2.1)
    let r := n1.revertNode s
    (r.1, cPair.2 + rec2.2.1, rec2.2.2 + r.2)

/-- `CTWContextTree.update` for a single symbol.  If
`len(history) >= depth` the context path is (re)built — creating missing
nodes — and the first `depth` context nodes are updated with `s` in
reverse context order; in every case `s` is then appended to the history.
For depth 0 with nonempty history, `update_context()` still creates the
single context child (its loop body runs once before the break), but
`context[:0]` is empty so no node statistics change. -/
def CTWContextTree.update1 (t : CTWContextTree) (s : Bool) : CTWContextTree :=
  if t.depth ≤ t.history.length then
    if t.depth = 0 then
      match t.history.reverse with
      | [] => { t with history := t.history ++ [s] }
      | k :: _ =>
        match t.root.child k with
        | some _ => { t with history := t.history ++ [s] }
        | none =>
          { t with
            root := t.root.setChild k (some freshNode),
            tree_size := t.tree_size + 1,
            history := t.history ++ [s] }
    else
      let r := updateContextUpdate s t.root t.history.reverse t.depth
      { t with
        root := r.1,
        tree_size := t.tree_size + r.2,
        history := t.history ++ [s] }
  else { t with history := t.history ++ [s] }

/-- `CTWContextTree.update(symbol_list)`: update with each symbol in
order. -/
def CTWContextTree.update (t : CTWContextTree) (bs : List Bool) :
    CTWContextTree :=
  bs.foldl CTWContextTree.update1 t

/-- `CTWContextTree.update_history(symbol_list)`: append to the history
without touching any node. -/
def CTWContextTree.updateHistory (t : CTWContextTree) (bs : List Bool) :
    CTWContextTree :=
  { t with history := t.history ++ bs }

/-- One iteration of the loop in `CTWContextTree.revert`: if the history is
empty, return (the source's early `return`); otherwise pop the last
symbol, and if the remaining history is at least as long as the depth,
rebuild the context path (creating missing nodes) and revert the first
`depth` context nodes in reverse context order.  For depth 0 the rebuild
can still create the single context child, and no node is reverted. -/
def CTWContextTree.revert1 (t : CTWContextTree) : CTWContextTree :=
  match t.history.reverse with
  | [] => t
  | s :: revRest =>
    let h2 := revRest.reverse
    if t.depth ≤ h2.length then
      if t.depth = 0 then
        match revRest with
        | [] => { t with history := h2 }
        | k :: _ =>
          match t.root.child k with
          | some _ => { t with history := h2 }
          | none =>
            { t with
              root := t.root.setChild k (some freshNode),
              tree_size := t.tree_size + 1,
              history := h2 }
      else
        let r := updateContextRevert s t.root revRest t.depth
        { t with
          root := r.1,
          tree_size := t.tree_size + r.2.1 - r.2.2,
          history := h2 }
    else { t with history := h2 }

/-- `CTWContextTree.revert(symbol_count)`: iterate `revert1`
`symbol_count` times.  (The source's early `return` on an empty history is
equivalent to iterating the no-op.) -/
def CTWContextTree.revert (t : CTWContextTree) (k : Nat) : CTWContextTree :=
  CTWContextTree.revert1^[k] t

/-- `CTWContextTree.revert_history(symbol_count)`: `none` models a failed
assertion.  The asserts require `symbol_count > 0` and
`symbol_count ≤ len(history)`; on success the history is truncated to its
first `len(history) - symbol_count` elements. -/
def CTWContextTree.revertHistory (t : CTWContextTree) (k : ℤ) :
    Option CTWContextTree :=
  if 0 < k ∧ k ≤ (t.history.length : ℤ) then
    some { t with history := t.history.take (t.history.length - k.toNat) }
  else none

/-- `CTWContextTree.size()`. -/
def CTWContextTree.size (t : CTWContextTree) : ℤ := t.tree_size

/-- The value returned by `CTWContextTree.predict(symbol_list)`.  With
insufficient context (`len(history) + len(bs) ≤ depth`) it is
`0.5 ^ len(bs)`; otherwise it is the exact value of
`exp(log P(root after update(bs)) - log P(root))`, the quotient of the
two linear-space weighted probabilities. -/
def CTWContextTree.predictVal (t : CTWContextTree) (bs : List Bool) : ℚ :=
  if t.history.length + bs.length ≤ t.depth then (1/2 : ℚ) ^ bs.length
  else (t.update bs).root.prob / t.root.prob

/-- The tree state after `CTWContextTree.predict(symbol_list)` returns:
unchanged on the uniform fallback, otherwise `update(bs)` followed by
`revert(len(bs))`. -/
def CTWContextTree.predictTree (t : CTWContextTree) (bs : List Bool) :
    CTWContextTree :=
  if t.history.length + bs.length ≤ t.depth then t
  else (t.update bs).revert bs.length

/-- `CTWContextTree.generate_random_symbols_and_update(symbol_count)`.
The stream of `random.random()` draws is passed explicitly as a list of
rationals, one per generated symbol (so `symbol_count = us.length`).
Each step computes `predict(1)` — which itself mutates the tree by its
update/revert sandwich — emits 1 exactly when the draw is below that
probability, and updates the tree with the emitted symbol. -/
def CTWContextTree.generateRandomSymbolsAndUpdate (t : CTWContextTree) :
    List ℚ → List Bool × CTWContextTree
  | [] => ([], t)
  | u :: us =>
    let p := t.predictVal [true]
    let t1 := t.predictTree [true]
    let s : Bool := decide (u < p)
    let t2 := t1.update [s]
    let rest := t2.generateRandomSymbolsAndUpdate us
    (s :: rest.1, rest.2)

/-- `CTWContextTree.generate_random_symbols(symbol_count)`.  The source's
first statement is
`symbol_list = self.generate_random_symbols_and_update(symbol_list, symbol_count)`,
which reads the local `symbol_list` before any assignment to it (and also
passes a surplus argument), so every call raises `UnboundLocalError`
before any sampling happens; the function never returns.  The embedding
models this unconditional failure as `none`. -/
def CTWContextTree.generateRandomSymbols (_ : CTWContextTree) (_ : Nat) :
    Option (List Bool × CTWContextTree) :=
  none

/-! ## The bit codec of `util.py` -/

/-- Binary digits of `v`, least significant first (helper; fuel-structured
so that it reduces definitionally). -/
def natBitsAux : Nat → Nat → List Bool
  | _, 0 => []
  | 0, _ + 1 => []
  | f + 1, v + 1 => decide ((v + 1) % 2 = 1) :: natBitsAux f ((v + 1) / 2)

/-- Binary digits of `v`, least significant first. -/
def natBits (v : Nat) : List Bool := natBitsAux v v

/-- The digit list produced by Python's `bin(v)` after stripping `0b`:
most significant bit first, and `bin(0) = '0b0'` yields the single digit
0. -/
def pyBin (v : Nat) : List Bool :=
  if v = 0 then [false] else (natBits v).reverse

/-- `util.encode(integer_symbol, bit_count)`.  `none` models the failed
assert when the value needs more than `bit_count` digits.  The padding
list of the source is `[0 for i in xrange(0, bits_length - bit_count)]`,
whose range is empty whenever the assert passed (`bits_length ≤
bit_count`), so the function returns the unpadded most-significant-first
digit list of `bin(integer_symbol)`. -/
def encode (v : Nat) (w : Nat) : Option (List Bool) :=
  let bits := pyBin v
  if bits.length ≤ w then some bits else none

/-- `util.decode(symbol_list, bit_count)`.  `none` models a failed assert
(`bit_count > 0` and `bit_count ≤ len(symbol_list)`).  The source takes
the last `bit_count` symbols, reverses them, joins them into a string and
parses it as binary, so the last element of the list is read as the most
significant bit. -/
def decode (bs : List Bool) (w : Nat) : Option Nat :=
  if 0 < w ∧ w ≤ bs.length then
    some (((bs.drop (bs.length - w)).reverse).foldl
      (fun a b => 2 * a + cond b 1 0) 0)
  else none

/-! ## Claims C3, C4, C5, C6, C10 -/

/-- C3 (code bug): the round-trip laws fail.  At `v = 2`, `w = 2`:
`encode(2, 2) = [1, 0]` (most significant first, no padding) but
`decode([1, 0], 2) = 1 ≠ 2`, because `decode` reads the *last* element as
the most significant bit while `encode` emits the most significant bit
*first*; in the other direction `encode(decode([1, 0], 2), 2) =
encode(1, 2) = [1] ≠ [1, 0]`, since the padding loop
`xrange(0, bits_length - bit_count)` is empty (its bounds are reversed),
and the unpadded `[1]` then fails `decode`'s length assert at width 2. -/
theorem encode_decode_roundtrip_fails :
    encode 2 2 = some [true, false] ∧
    decode [true, false] 2 = some 1 ∧
    decode [true] 2 = none ∧
    encode 1 2 = some [true] := by
  decide

/-- C4 (code bug): `generate_random_symbols` never returns: its first
statement reads the unassigned local `symbol_list` (and passes it as a
surplus argument), so every call — in particular on a fresh depth-1 tree
with `symbol_count = 1` — raises `UnboundLocalError` instead of sampling
`n` bits and leaving the tree unchanged. -/
theorem generate_random_symbols_always_fails :
    ∀ (t : CTWContextTree) (n : Nat),
      CTWContextTree.generateRandomSymbols t n = none := by
  intro t n
  rfl

/-- C5, amended: `predict(bs)` is exactly `0.5 ^ len(bs)` whenever
`len(history) + len(bs) ≤ depth` (the source's uniform-fallback branch);
the history-only condition `len(history) < depth` of the original claim
is not sufficient. -/
theorem predict_uniform_fallback (t : CTWContextTree) (bs : List Bool)
    (h : t.history.length + bs.length ≤ t.depth) :
    t.predictVal bs = (1/2 : ℚ) ^ bs.length := by
  unfold CTWContextTree.predictVal
  rw [if_pos h]

/-- Witness for `predict_uniform_fallback` at a fresh depth-2 tree and
`bs = [1]`. -/
theorem predict_uniform_fallback_witness :
    (CTWContextTree.create 2).history.length + [true].length ≤
      (CTWContextTree.create 2).depth ∧
    (CTWContextTree.create 2).predictVal [true] = (1/2 : ℚ) ^ [true].length :=
  ⟨by decide, predict_uniform_fallback (CTWContextTree.create 2) [true] (by decide)⟩

/-- Counterexample to C5 as stated: the fresh depth-1 tree has history
length `0 < 1 = depth`, yet `predict([1, 1]) = 3/4 ≠ 0.5²`: the second
bit of the queried block falls past the depth and is scored by the root's
KT mixture. -/
theorem predict_short_history_counterexample :
    (CTWContextTree.create 1).history.length < (CTWContextTree.create 1).depth ∧
    (CTWContextTree.create 1).predictVal [true, true] = 3/4 ∧
    (3/4 : ℚ) ≠ (1/2 : ℚ) ^ 2 := by
  refine ⟨by decide, ?_, by norm_num⟩
  norm_num [CTWContextTree.predictVal, CTWContextTree.create, CTWContextTree.update,
    CTWContextTree.update1, updateContextUpdate, CTWContextTreeNode.updateNode,
    CTWContextTreeNode.updateLogProbability, CTWContextTreeNode.isLeafNode,
    CTWContextTreeNode.childProbProduct, CTWContextTreeNode.ktMultiplier,
    CTWContextTreeNode.symbolCount, CTWContextTreeNode.visits,
    CTWContextTreeNode.child, CTWContextTreeNode.setChild,
    CTWContextTreeNode.c0, CTWContextTreeNode.c1, CTWContextTreeNode.kt,
    CTWContextTreeNode.prob, CTWContextTreeNode.child0, CTWContextTreeNode.child1,
    freshNode]

/-- C6 (code bug): a depth-0 tree is *not* a KT estimator over the raw
stream.  `update` only updates `context[:0] = []`, so no node ever
changes and `predict([1])` is `exp(0 - 0) = 1` regardless of the history:
after history `[1]` (zero 0s, one 1) the KT claim gives `(1 + 1/2) /
(0 + 1 + 1) = 3/4`, but the code returns 1 — not a probability
distribution at all. -/
theorem depth_zero_not_kt_estimator :
    ((CTWContextTree.create 0).update [true]).root.c0 = 0 ∧
    ((CTWContextTree.create 0).update [true]).root.c1 = 0 ∧
    ((CTWContextTree.create 0).update [true]).predictVal [true] = 1 ∧
    (1 : ℚ) ≠ (1 + 1/2) / (0 + 1 + 1) := by
  refine ⟨by decide, by decide, ?_, by norm_num⟩
  norm_num [CTWContextTree.predictVal, CTWContextTree.create, CTWContextTree.update,
    CTWContextTree.update1, updateContextUpdate, CTWContextTreeNode.updateNode,
    CTWContextTreeNode.updateLogProbability, CTWContextTreeNode.isLeafNode,
    CTWContextTreeNode.childProbProduct, CTWContextTreeNode.ktMultiplier,
    CTWContextTreeNode.symbolCount, CTWContextTreeNode.visits,
    CTWContextTreeNode.child, CTWContextTreeNode.setChild,
    CTWContextTreeNode.c0, CTWContextTreeNode.c1, CTWContextTreeNode.kt,
    CTWContextTreeNode.prob, CTWContextTreeNode.child0, CTWContextTreeNode.child1,
    freshNode]

/-- C10: `revert_history(k)` succeeds exactly when `1 ≤ k ≤
len(history)`; in particular every `k ≤ 0` (including the no-op candidate
`k = 0`) fails the first assert regardless of the history. -/
theorem revert_history_ok_iff (t : CTWContextTree) (k : ℤ) :
    (t.revertHistory k).isSome = true ↔ 1 ≤ k ∧ k ≤ (t.history.length : ℤ) := by
  unfold CTWContextTree.revertHistory
  by_cases h : 0 < k ∧ k ≤ (t.history.length : ℤ)
  · rw [if_pos h]
    simpa using h
  · rw [if_neg h]
    simpa using h

/-! ## The Monte-Carlo search tree (`monte_carlo_search_tree.py`) -/

/-- A node of the Monte-Carlo search tree (`MonteCarloSearchNode`): its
type (`true` = chance node, `false` = decision node), visit count, running
mean reward, and children keyed by action or observation integers. -/
inductive MonteCarloSearchNode : Type where
  | mk (isChanceNode : Bool) (visits : Nat) (mean : ℚ)
      (children : List (Nat × MonteCarloSearchNode))

/-- Whether this is a chance node (`self.type == chance_node`). -/
def MonteCarloSearchNode.isChanceNode : MonteCarloSearchNode → Bool
  | .mk b _ _ _ => b

/-- The visit count (`self.visits`). -/
def MonteCarloSearchNode.visits : MonteCarloSearchNode → Nat
  | .mk _ v _ _ => v

/-- The running mean reward (`self.mean`, a float in the source, exact
here). -/
def MonteCarloSearchNode.mean : MonteCarloSearchNode → ℚ
  | .mk _ _ m _ => m

/-- The children map (`self.children`), as an association list. -/
def MonteCarloSearchNode.children :
    MonteCarloSearchNode → List (Nat × MonteCarloSearchNode)
  | .mk _ _ _ cs => cs

/-- `self.children.get(key)`. -/
def MonteCarloSearchNode.findChild (n : MonteCarloSearchNode) (k : Nat) :
    Option MonteCarloSearchNode :=
  n.children.lookup k

/-- `self.children[key] = node` on an association list: replace the
binding if present, else append it. -/
def upsertChild :
    List (Nat × MonteCarloSearchNode) → Nat → MonteCarloSearchNode →
      List (Nat × MonteCarloSearchNode)
  | [], k, c => [(k, c)]
  | (k0, c0) :: rest, k, c =>
    if k0 = k then (k0, c) :: rest else (k0, c0) :: upsertChild rest k c

/-- Store a child under a key (`self.children[key] = node`). -/
def MonteCarloSearchNode.setChildNode (n : MonteCarloSearchNode) (k : Nat)
    (c : MonteCarloSearchNode) : MonteCarloSearchNode :=
  .mk n.isChanceNode n.visits n.mean (upsertChild n.children k c)

/-- The post-sample bookkeeping of `sample`:
`mean = (reward + visits * mean) / (visits + 1); visits += 1`, using the
pre-increment visit count. -/
def MonteCarloSearchNode.updateMeanVisits (n : MonteCarloSearchNode)
    (reward : ℚ) : MonteCarloSearchNode :=
  .mk n.isChanceNode (n.visits + 1)
    ((reward + (n.visits : ℚ) * n.mean) / ((n.visits : ℚ) + 1)) n.children

/-- `MonteCarloSearchNode.__init__(nodetype)`: a fresh node with zero
visits, zero mean and no children. -/
def MonteCarloSearchNode.create (isChance : Bool) : MonteCarloSearchNode :=
  .mk isChance 0 0 []

/-- The agent operations `sample` invokes, abstracted: `selectAction` is
the UCB `select_action` policy (its float/RNG internals are opaque to the
recursion structure), `updateAction` is `model_update_action`,
`genPerceptAndUpdate` is `generate_percept_and_update` (returning the
sampled `(observation, random_reward)` and the mutated agent), and
`playout` is the uniform-random rollout. -/
structure MCTSModel (A : Type) where
  selectAction : MonteCarloSearchNode → A → Nat
  updateAction : Nat → A → A
  genPerceptAndUpdate : A → (Nat × ℚ) × A
  playout : Nat → A → ℚ × A

/-- `MonteCarloSearchNode.sample(agent, horizon)`.  The first argument is
fuel bounding the recursion depth (the Python call stack); on the trees
`sample` itself builds, node kinds alternate, so any fuel above
`2 * horizon` is enough and the fuel-exhaustion branch is unreachable.
Returns `(reward, mutated node, mutated agent)`.

* `horizon == 0`: return 0 immediately, leaving node and agent untouched.
* Chance node: draw `(observation, random_reward)` from the model,
  find-or-create the decision child keyed by the observation, recurse
  with `horizon - 1`, set `reward = random_reward + child_return`, then
  update this node's mean/visits.
* Decision node with `visits == 0`: playout with the full horizon.
* Decision node with `visits > 0`: select an action by UCB, apply
  `model_update_action`, find-or-create the chance child keyed by the
  action, and recurse with the *same* horizon. -/
def MonteCarloSearchNode.sample {A : Type} (M : MCTSModel A) :
    Nat → MonteCarloSearchNode → A → Nat → ℚ × MonteCarloSearchNode × A
  | 0, n, a, _ => (0, n, a)
  | _ + 1, n, a, 0 => (0, n, a)
  | f + 1, n, a, h + 1 =>
    if n.isChanceNode then
      let pr := M.genPerceptAndUpdate a
      let child : MonteCarloSearchNode :=
        match n.findChild pr.1.1 with
        | some c => c
        | none => MonteCarloSearchNode.create false
      let rec2 := MonteCarloSearchNode.sample M f child pr.2 h
      let reward := pr.1.2 + rec2.1
      (reward, (n.setChildNode pr.1.1 rec2.2.1).updateMeanVisits reward,
        rec2.2.2)
    else if n.visits = 0 then
      let pl := M.playout (h + 1) a
      (pl.1, n.updateMeanVisits pl.1, pl.2)
    else
      let act := M.selectAction n a
      let a1 := M.updateAction act a
      let child : MonteCarloSearchNode :=
        match n.findChild act with
        | some c => c
        | none => MonteCarloSearchNode.create true
      let rec2 := MonteCarloSearchNode.sample M f child a1 (h + 1)
      (rec2.1, (n.setChildNode act rec2.2.1).updateMeanVisits rec2.1,
        rec2.2.2)

/-- C8: the recursion structure of `sample`.  (1) `horizon == 0` returns
reward 0 with node and agent untouched.  (2) A visited decision node
selects an action, applies `model_update_action`, and recurses into the
chance child keyed by that action with the *same*, undecremented horizon.
(3) Only a chance node decrements the horizon: it recurses into the
decision child keyed by the sampled observation with `horizon - 1` and
returns the sampled reward plus the child's return. -/
theorem mcts_sample_structure (A : Type) (M : MCTSModel A) :
    (∀ (f : Nat) (n : MonteCarloSearchNode) (a : A),
      MonteCarloSearchNode.sample M (f + 1) n a 0 = (0, n, a)) ∧
    (∀ (f h : Nat) (n : MonteCarloSearchNode) (a : A),
      n.isChanceNode = false → n.visits ≠ 0 →
      MonteCarloSearchNode.sample M (f + 1) n a (h + 1) =
        (let act := M.selectAction n a
         let a1 := M.updateAction act a
         let child : MonteCarloSearchNode :=
           match n.findChild act with
           | some c => c
           | none => MonteCarloSearchNode.create true
         let rec2 := MonteCarloSearchNode.sample M f child a1 (h + 1)
         (rec2.1, (n.setChildNode act rec2.2.1).updateMeanVisits rec2.1,
           rec2.2.2))) ∧
    (∀ (f h : Nat) (n : MonteCarloSearchNode) (a : A),
      n.isChanceNode = true →
      MonteCarloSearchNode.sample M (f + 1) n a (h + 1) =
        (let pr := M.genPerceptAndUpdate a
         let child : MonteCarloSearchNode :=
           match n.findChild pr.1.1 with
           | some c => c
           | none => MonteCarloSearchNode.create false
         let rec2 := MonteCarloSearchNode.sample M f child pr.2 h
         let reward := pr.1.2 + rec2.1
         (reward, (n.setChildNode pr.1.1 rec2.2.1).updateMeanVisits reward,
           rec2.2.2))) := by
  refine ⟨fun f n a => rfl, fun f h n a hc hv => ?_, fun f h n a hc => ?_⟩
  · rw [MonteCarloSearchNode.sample, hc, if_neg hv]
    simp only [Bool.false_eq_true, if_false]
  · rw [MonteCarloSearchNode.sample, hc]
    simp only [if_true]

/-- Witness for `mcts_sample_structure`: the decision-node equation at a
concrete one-visit decision node, trivial oracles, fuel 1 and horizon 1. -/
theorem mcts_sample_structure_witness :
    (MonteCarloSearchNode.mk false 1 0 []).isChanceNode = false ∧
    (MonteCarloSearchNode.mk false 1 0 []).visits ≠ 0 ∧
    MonteCarloSearchNode.sample
        ⟨fun _ _ => 0, fun _ a => a, fun a => ((0, 1), a), fun _ a => (2, a)⟩
        1 (MonteCarloSearchNode.mk false 1 0 []) () 1 =
      (let M : MCTSModel Unit :=
        ⟨fun _ _ => 0, fun _ a => a, fun a => ((0, 1), a), fun _ a => (2, a)⟩
       let n := MonteCarloSearchNode.mk false 1 0 []
       let act := M.selectAction n ()
       let a1 := M.updateAction act ()
       let child : MonteCarloSearchNode :=
         match n.findChild act with
         | some c => c
         | none => MonteCarloSearchNode.create true
       let rec2 := MonteCarloSearchNode.sample M 0 child a1 1
       (rec2.1, (n.setChildNode act rec2.2.1).updateMeanVisits rec2.1,
         rec2.2.2)) :=
  ⟨rfl, by decide,
    (mcts_sample_structure Unit
      ⟨fun _ _ => 0, fun _ a => a, fun a => ((0, 1), a), fun _ a => (2, a)⟩).2.1
      0 0 (MonteCarloSearchNode.mk false 1 0 []) () rfl (by decide)⟩

/-! ## Basic accessor lemmas for CTW nodes -/

theorem CTWContextTreeNode.c0_mk (a b : Nat) (k p : ℚ)
    (x y : Option CTWContextTreeNode) :
    (CTWContextTreeNode.mk a b k p x y).c0 = a := rfl

theorem CTWContextTreeNode.c1_mk (a b : Nat) (k p : ℚ)
    (x y : Option CTWContextTreeNode) :
    (CTWContextTreeNode.mk a b k p x y).c1 = b := rfl

theorem CTWContextTreeNode.kt_mk (a b : Nat) (k p : ℚ)
    (x y : Option CTWContextTreeNode) :
    (CTWContextTreeNode.mk a b k p x y).kt = k := rfl

theorem CTWContextTreeNode.prob_mk (a b : Nat) (k p : ℚ)
    (x y : Option CTWContextTreeNode) :
    (CTWContextTreeNode.mk a b k p x y).prob = p := rfl

theorem CTWContextTreeNode.child0_mk (a b : Nat) (k p : ℚ)
    (x y : Option CTWContextTreeNode) :
    (CTWContextTreeNode.mk a b k p x y).child0 = x := rfl

theorem CTWContextTreeNode.child1_mk (a b : Nat) (k p : ℚ)
    (x y : Option CTWContextTreeNode) :
    (CTWContextTreeNode.mk a b k p x y).child1 = y := rfl

/-- `updateLogProbability` only changes the `prob` field. -/
theorem CTWContextTreeNode.updateLogProbability_parts
    (n : CTWContextTreeNode) :
    (n.updateLogProbability).c0 = n.c0 ∧ (n.updateLogProbability).c1 = n.c1 ∧
    (n.updateLogProbability).kt = n.kt ∧
    (n.updateLogProbability).child0 = n.child0 ∧
    (n.updateLogProbability).child1 = n.child1 := by
  unfold CTWContextTreeNode.updateLogProbability
  split <;> exact ⟨rfl, rfl, rfl, rfl, rfl⟩

/-- `updateNode` leaves both children unchanged. -/
theorem CTWContextTreeNode.updateNode_children (n : CTWContextTreeNode)
    (s : Bool) :
    (n.updateNode s).child0 = n.child0 ∧ (n.updateNode s).child1 = n.child1 := by
  unfold CTWContextTreeNode.updateNode
  have h := CTWContextTreeNode.updateLogProbability_parts
    (CTWContextTreeNode.mk n.c0 n.c1 (n.kt * n.ktMultiplier s) n.prob
      n.child0 n.child1)
  cases s <;>
    simp only [CTWContextTreeNode.child0_mk, CTWContextTreeNode.child1_mk] <;>
    exact ⟨h.2.2.2.1, h.2.2.2.2⟩

/-- The children of `revertNode`: the child opposite the reverted symbol
is unchanged, and the child under the reverted symbol is either deleted
or unchanged. -/
theorem CTWContextTreeNode.revertNode_children (n : CTWContextTreeNode)
    (s : Bool) :
    ((n.revertNode s).1.child0 = n.child0 ∨ (n.revertNode s).1.child0 = none) ∧
    ((n.revertNode s).1.child1 = n.child1 ∨ (n.revertNode s).1.child1 = none) := by
  rcases n with ⟨a, b, k, p, x, y⟩
  cases s <;> rcases x with _ | cx <;> rcases y with _ | cy <;>
    simp only [CTWContextTreeNode.revertNode, CTWContextTreeNode.child,
      CTWContextTreeNode.setChild, CTWContextTreeNode.updateLogProbability,
      CTWContextTreeNode.isLeafNode, CTWContextTreeNode.c0_mk,
      CTWContextTreeNode.c1_mk, CTWContextTreeNode.kt_mk,
      CTWContextTreeNode.prob_mk, CTWContextTreeNode.child0_mk,
      CTWContextTreeNode.child1_mk, Bool.false_eq_true, if_true, if_false] <;>
    first
      | (split <;>
          simp [CTWContextTreeNode.child0_mk, CTWContextTreeNode.child1_mk])
      | simp [CTWContextTreeNode.child0_mk, CTWContextTreeNode.child1_mk]

/-! ## Claim C9: nodes at the depth frontier never accumulate statistics -/

/-- `deepLeafB n d = true` says: every node `d` levels below `n` (i.e. at
tree depth `depth` when `n` sits at depth `depth - d`) is exactly a fresh
node — zero counts, `log_kt = 0` and `log_probability = 0` (linear-space
value 1), and childless. -/
def deepLeafB : CTWContextTreeNode → Nat → Bool
  | n, 0 =>
    decide (n.c0 = 0) && decide (n.c1 = 0) && decide (n.kt = 1) &&
      decide (n.prob = 1) && n.child0.isNone && n.child1.isNone
  | n, d + 1 =>
    (match n.child0 with | none => true | some c => deepLeafB c d) &&
    (match n.child1 with | none => true | some c => deepLeafB c d)

theorem deepLeafB_fresh : ∀ d : Nat, deepLeafB freshNode d = true := by
  intro d
  cases d <;> simp [deepLeafB, freshNode, CTWContextTreeNode.c0,
    CTWContextTreeNode.c1, CTWContextTreeNode.kt, CTWContextTreeNode.prob,
    CTWContextTreeNode.child0, CTWContextTreeNode.child1]

theorem deepLeafB_succ (n : CTWContextTreeNode) (d : Nat) :
    deepLeafB n (d + 1) = true ↔
      (∀ c, n.child0 = some c → deepLeafB c d = true) ∧
      (∀ c, n.child1 = some c → deepLeafB c d = true) := by
  rcases n with ⟨a, b, k, p, x, y⟩
  rcases x with _ | cx <;> rcases y with _ | cy <;>
    simp [deepLeafB, CTWContextTreeNode.child0, CTWContextTreeNode.child1]

theorem setChild_child0_false (n : CTWContextTreeNode)
    (c : Option CTWContextTreeNode) : (n.setChild false c).child0 = c := rfl

theorem setChild_child1_false (n : CTWContextTreeNode)
    (c : Option CTWContextTreeNode) : (n.setChild false c).child1 = n.child1 :=
  rfl

theorem setChild_child0_true (n : CTWContextTreeNode)
    (c : Option CTWContextTreeNode) : (n.setChild true c).child0 = n.child0 :=
  rfl

theorem setChild_child1_true (n : CTWContextTreeNode)
    (c : Option CTWContextTreeNode) : (n.setChild true c).child1 = c := rfl

/-- `updateNode` preserves the depth-frontier invariant (it does not touch
children). -/
theorem updateNode_deepLeaf (n : CTWContextTreeNode) (s : Bool) (d : Nat)
    (h : deepLeafB n (d + 1) = true) :
    deepLeafB (n.updateNode s) (d + 1) = true := by
  rw [deepLeafB_succ] at h ⊢
  obtain ⟨h0, h1⟩ := CTWContextTreeNode.updateNode_children n s
  rw [h0, h1]
  exact h

/-- `revertNode` preserves the depth-frontier invariant (it can only
delete a child). -/
theorem revertNode_deepLeaf (n : CTWContextTreeNode) (s : Bool) (d : Nat)
    (h : deepLeafB n (d + 1) = true) :
    deepLeafB (n.revertNode s).1 (d + 1) = true := by
  rw [deepLeafB_succ] at h ⊢
  obtain ⟨h0, h1⟩ := CTWContextTreeNode.revertNode_children n s
  constructor
  · intro c hc
    rcases h0 with h0 | h0
    · exact h.1 c (h0 ▸ hc)
    · rw [h0] at hc; cases hc
  · intro c hc
    rcases h1 with h1 | h1
    · exact h.2 c (h1 ▸ hc)
    · rw [h1] at hc; cases hc

/-- The fused update walk preserves the depth-frontier invariant: the
node at budget 0 is never updated, created nodes are fresh, and no other
children change. -/
theorem updateContextUpdate_deepLeaf (s : Bool) :
    ∀ (ks : List Bool) (n : CTWContextTreeNode) (d : Nat),
      deepLeafB n d = true →
      deepLeafB (updateContextUpdate s n ks d).1 d = true := by
  intro ks
  induction ks with
  | nil =>
    intro n d h
    cases d with
    | zero => simpa [updateContextUpdate] using h
    | succ d => simpa [updateContextUpdate] using updateNode_deepLeaf n s d h
  | cons k ks ih =>
    intro n d h
    cases d with
    | zero => simpa [updateContextUpdate] using h
    | succ d =>
      rw [updateContextUpdate]
      simp only []
      have hchild : ∀ c : CTWContextTreeNode,
          (match n.child k with
            | some c0 => (c0, 0)
            | none => (freshNode, 1) :
              CTWContextTreeNode × Nat).1 = c → deepLeafB c d = true := by
        intro c hc
        rcases hk : n.child k with _ | c0
        · rw [hk] at hc; simp at hc; subst hc; exact deepLeafB_fresh d
        · rw [hk] at hc; simp at hc; subst hc
          cases k with
          | false => exact (deepLeafB_succ n d).mp h |>.1 c0 hk
          | true => exact (deepLeafB_succ n d).mp h |>.2 c0 hk
      apply updateNode_deepLeaf
      rw [deepLeafB_succ]
      have hrec := ih
        ((match n.child k with
          | some c0 => (c0, 0)
          | none => (freshNode, 1) : CTWContextTreeNode × Nat).1) d
        (hchild _ rfl)
      cases k with
      | false =>
        rw [setChild_child0_false, setChild_child1_false]
        exact ⟨fun c hc => by cases hc; exact hrec,
          fun c hc => (deepLeafB_succ n d).mp h |>.2 c hc⟩
      | true =>
        rw [setChild_child0_true, setChild_child1_true]
        exact ⟨fun c hc => (deepLeafB_succ n d).mp h |>.1 c hc,
          fun c hc => by cases hc; exact hrec⟩

/-- The fused revert walk preserves the depth-frontier invariant. -/
theorem updateContextRevert_deepLeaf (s : Bool) :
    ∀ (ks : List Bool) (n : CTWContextTreeNode) (d : Nat),
      deepLeafB n d = true →
      deepLeafB (updateContextRevert s n ks d).1 d = true := by
  intro ks
  induction ks with
  | nil =>
    intro n d h
    cases d with
    | zero => simpa [updateContextRevert] using h
    | succ d => simpa [updateContextRevert] using revertNode_deepLeaf n s d h
  | cons k ks ih =>
    intro n d h
    cases d with
    | zero => simpa [updateContextRevert] using h
    | succ d =>
      rw [updateContextRevert]
      simp only []
      have hchild : ∀ c : CTWContextTreeNode,
          (match n.child k with
            | some c0 => (c0, 0)
            | none => (freshNode, 1) :
              CTWContextTreeNode × Nat).1 = c → deepLeafB c d = true := by
        intro c hc
        rcases hk : n.child k with _ | c0
        · rw [hk] at hc; simp at hc; subst hc; exact deepLeafB_fresh d
        · rw [hk] at hc; simp at hc; subst hc
          cases k with
          | false => exact (deepLeafB_succ n d).mp h |>.1 c0 hk
          | true => exact (deepLeafB_succ n d).mp h |>.2 c0 hk
      apply revertNode_deepLeaf
      rw [deepLeafB_succ]
      have hrec := ih
        ((match n.child k with
          | some c0 => (c0, 0)
          | none => (freshNode, 1) : CTWContextTreeNode × Nat).1) d
        (hchild _ rfl)
      cases k with
      | false =>
        rw [setChild_child0_false, setChild_child1_false]
        exact ⟨fun c hc => by cases hc; exact hrec,
          fun c hc => (deepLeafB_succ n d).mp h |>.2 c hc⟩
      | true =>
        rw [setChild_child0_true, setChild_child1_true]
        exact ⟨fun c hc => (deepLeafB_succ n d).mp h |>.1 c hc,
          fun c hc => by cases hc; exact hrec⟩

theorem CTWContextTree.depth_update1 (t : CTWContextTree) (s : Bool) :
    (t.update1 s).depth = t.depth := by
  unfold CTWContextTree.update1
  dsimp only
  repeat' split
  all_goals rfl

theorem CTWContextTree.depth_revert1 (t : CTWContextTree) :
    t.revert1.depth = t.depth := by
  unfold CTWContextTree.revert1
  dsimp only
  repeat' split
  all_goals rfl

theorem CTWContextTree.depth_updateHistory (t : CTWContextTree)
    (bs : List Bool) : (t.updateHistory bs).depth = t.depth := rfl

theorem CTWContextTree.revertHistory_parts (t t2 : CTWContextTree) (k : ℤ)
    (h : t.revertHistory k = some t2) : t2.depth = t.depth ∧ t2.root = t.root := by
  unfold CTWContextTree.revertHistory at h
  split at h
  · cases h; exact ⟨rfl, rfl⟩
  · cases h

/-- `update1` preserves the depth-frontier invariant when the depth is
nonzero. -/
theorem CTWContextTree.update1_deepLeaf (t : CTWContextTree) (s : Bool)
    (hd : t.depth ≠ 0) (h : deepLeafB t.root t.depth = true) :
    deepLeafB (t.update1 s).root t.depth = true := by
  unfold CTWContextTree.update1
  rw [if_neg hd]
  split
  · exact updateContextUpdate_deepLeaf s t.history.reverse t.root t.depth h
  · exact h

/-- `revert1` preserves the depth-frontier invariant when the depth is
nonzero. -/
theorem CTWContextTree.revert1_deepLeaf (t : CTWContextTree)
    (hd : t.depth ≠ 0) (h : deepLeafB t.root t.depth = true) :
    deepLeafB t.revert1.root t.depth = true := by
  unfold CTWContextTree.revert1
  split
  · exact h
  · dsimp only
    rw [if_neg hd]
    split
    · exact updateContextRevert_deepLeaf _ _ t.root t.depth h
    · exact h

/-- The tree states reachable from a freshly constructed `CTWContextTree`
by the public operations `update` (one symbol at a time), `update_history`,
`revert` (one popped symbol at a time) and `revert_history`.  `predict`
mutates the tree only through `update` followed by `revert`, so its
effect is covered by these constructors. -/
inductive CTWReachable : CTWContextTree → Prop where
  | create (d : Nat) : CTWReachable (CTWContextTree.create d)
  | update1 {t : CTWContextTree} (s : Bool) :
      CTWReachable t → CTWReachable (t.update1 s)
  | updateHistory {t : CTWContextTree} (bs : List Bool) :
      CTWReachable t → CTWReachable (t.updateHistory bs)
  | revert1 {t : CTWContextTree} :
      CTWReachable t → CTWReachable t.revert1
  | revertHistory {t t2 : CTWContextTree} (k : ℤ) :
      CTWReachable t → t.revertHistory k = some t2 → CTWReachable t2

/-- C9: in every reachable state of a CTW of depth D ≥ 1, every node at
depth D is a childless leaf with both symbol counts 0, `log_kt = 0` and
`log_probability = 0` (linear-space KT estimate and weighted probability
both 1): `update` and `revert` only apply node statistics to
`context[:depth]`, the first D nodes of the (D+1)-node context path, so
the deepest context node is created but never accumulates statistics. -/
theorem ctw_depth_frontier_pristine (t : CTWContextTree)
    (h : CTWReachable t) (hd : 1 ≤ t.depth) :
    deepLeafB t.root t.depth = true := by
  induction h with
  | create d => exact deepLeafB_fresh d
  | update1 s _ ih =>
    rename_i t0 _
    rw [CTWContextTree.depth_update1] at hd ⊢
    exact t0.update1_deepLeaf s (by omega) (ih hd)
  | updateHistory bs _ ih =>
    rename_i t0 _
    rw [CTWContextTree.depth_updateHistory] at hd ⊢
    exact ih hd
  | revert1 _ ih =>
    rename_i t0 _
    rw [CTWContextTree.depth_revert1] at hd ⊢
    exact t0.revert1_deepLeaf (by omega) (ih hd)
  | revertHistory k _ hrh ih =>
    rename_i t0 t2 _
    obtain ⟨hdep, hroot⟩ := CTWContextTree.revertHistory_parts t0 t2 k hrh
    rw [hdep] at hd ⊢
    rw [hroot]
    exact ih hd

/-- Witness for `ctw_depth_frontier_pristine` at the reachable depth-1
tree obtained by updating with 1 then 0. -/
theorem ctw_depth_frontier_pristine_witness :
    1 ≤ (((CTWContextTree.create 1).update1 true).update1 false).depth ∧
    deepLeafB (((CTWContextTree.create 1).update1 true).update1 false).root
      (((CTWContextTree.create 1).update1 true).update1 false).depth = true :=
  ⟨by decide,
    ctw_depth_frontier_pristine
      (((CTWContextTree.create 1).update1 true).update1 false)
      (CTWReachable.update1 false
        (CTWReachable.update1 true (CTWReachable.create 1)))
      (by decide)⟩

/-! ## Claim C7: the predictive chain rule -/

/-- Every node in the subtree has positive linear-space KT estimate and
weighted probability (equivalently: the float fields `log_kt` and
`log_probability` are finite).  This holds in every reachable tree state
and is the precondition under which `predict`'s quotient of root
probabilities is well defined. -/
def posNodeB : CTWContextTreeNode → Bool
  | .mk _ _ k p x y =>
    decide (0 < k) && decide (0 < p) &&
    (match x with | none => true | some c => posNodeB c) &&
    (match y with | none => true | some c => posNodeB c)

theorem posNodeB_iff (n : CTWContextTreeNode) :
    posNodeB n = true ↔
      0 < n.kt ∧ 0 < n.prob ∧
      (∀ c, n.child0 = some c → posNodeB c = true) ∧
      (∀ c, n.child1 = some c → posNodeB c = true) := by
  rcases n with ⟨a, b, k, p, x, y⟩
  rcases x with _ | cx <;> rcases y with _ | cy <;>
    simp [posNodeB, CTWContextTreeNode.kt, CTWContextTreeNode.prob,
      CTWContextTreeNode.child0, CTWContextTreeNode.child1, and_assoc]

theorem childProbProduct_pos (n : CTWContextTreeNode)
    (h : posNodeB n = true) : 0 < n.childProbProduct := by
  rw [posNodeB_iff] at h
  unfold CTWContextTreeNode.childProbProduct
  rcases hx : n.child0 with _ | cx <;> rcases hy : n.child1 with _ | cy
  · norm_num
  · simpa using ((posNodeB_iff cy).mp (h.2.2.2 cy hy)).2.1
  · simpa using ((posNodeB_iff cx).mp (h.2.2.1 cx hx)).2.1
  · have hcx := ((posNodeB_iff cx).mp (h.2.2.1 cx hx)).2.1
    have hcy := ((posNodeB_iff cy).mp (h.2.2.2 cy hy)).2.1
    exact mul_pos hcx hcy

theorem ktMultiplier_pos (n : CTWContextTreeNode) (s : Bool) :
    0 < n.ktMultiplier s := by
  unfold CTWContextTreeNode.ktMultiplier
  apply div_pos <;> positivity

theorem updateLogProbability_pos (n : CTWContextTreeNode)
    (hk : 0 < n.kt) (hch : ∀ c, n.child0 = some c → posNodeB c = true)
    (hch1 : ∀ c, n.child1 = some c → posNodeB c = true) :
    posNodeB n.updateLogProbability = true := by
  have hprod : 0 < n.childProbProduct := by
    unfold CTWContextTreeNode.childProbProduct
    rcases hx : n.child0 with _ | cx <;> rcases hy : n.child1 with _ | cy
    · norm_num
    · simpa using ((posNodeB_iff cy).mp (hch1 cy hy)).2.1
    · simpa using ((posNodeB_iff cx).mp (hch cx hx)).2.1
    · exact mul_pos ((posNodeB_iff cx).mp (hch cx hx)).2.1
        ((posNodeB_iff cy).mp (hch1 cy hy)).2.1
  unfold CTWContextTreeNode.updateLogProbability
  split
  · rw [posNodeB_iff]
    exact ⟨hk, hk, fun c hc => hch c hc, fun c hc => hch1 c hc⟩
  · rw [posNodeB_iff]
    refine ⟨hk, ?_, fun c hc => hch c hc, fun c hc => hch1 c hc⟩
    show 0 < (n.kt + n.childProbProduct) / 2
    exact div_pos (by linarith) (by norm_num)

theorem updateNode_pos (n : CTWContextTreeNode) (s : Bool)
    (h : posNodeB n = true) : posNodeB (n.updateNode s) = true := by
  rw [posNodeB_iff] at h
  unfold CTWContextTreeNode.updateNode
  have hmid : posNodeB
      ((CTWContextTreeNode.mk n.c0 n.c1 (n.kt * n.ktMultiplier s) n.prob
        n.child0 n.child1).updateLogProbability) = true := by
    apply updateLogProbability_pos
    · simpa [CTWContextTreeNode.kt_mk] using
        mul_pos h.1 (ktMultiplier_pos n s)
    · simpa [CTWContextTreeNode.child0_mk] using h.2.2.1
    · simpa [CTWContextTreeNode.child1_mk] using h.2.2.2
  rw [posNodeB_iff] at hmid
  cases s <;>
  · rw [posNodeB_iff]
    simpa using hmid

theorem setChild_pos (n : CTWContextTreeNode) (s : Bool)
    (c : CTWContextTreeNode) (h : posNodeB n = true)
    (hc : posNodeB c = true) : posNodeB (n.setChild s (some c)) = true := by
  rcases n with ⟨a, b, k, p, x, y⟩
  cases s <;> rcases x with _ | cx <;> rcases y with _ | cy <;>
    simp_all [posNodeB, CTWContextTreeNode.setChild, CTWContextTreeNode.c0,
      CTWContextTreeNode.c1, CTWContextTreeNode.kt, CTWContextTreeNode.prob,
      CTWContextTreeNode.child0, CTWContextTreeNode.child1]

theorem freshNode_pos : posNodeB freshNode = true := by
  simp [posNodeB, freshNode]

theorem updateContextUpdate_pos (s : Bool) :
    ∀ (ks : List Bool) (n : CTWContextTreeNode) (d : Nat),
      posNodeB n = true →
      posNodeB (updateContextUpdate s n ks d).1 = true := by
  intro ks
  induction ks with
  | nil =>
    intro n d h
    cases d with
    | zero => simpa [updateContextUpdate] using h
    | succ d => simpa [updateContextUpdate] using updateNode_pos n s h
  | cons k ks ih =>
    intro n d h
    cases d with
    | zero => simpa [updateContextUpdate] using h
    | succ d =>
      rw [updateContextUpdate]
      simp only []
      apply updateNode_pos
      have hchild : posNodeB
          ((match n.child k with
            | some c0 => (c0, 0)
            | none => (freshNode, 1) : CTWContextTreeNode × Nat).1) = true := by
        rcases hk : n.child k with _ | c0
        · simpa using freshNode_pos
        · simp only []
          cases k with
          | false => exact ((posNodeB_iff n).mp h).2.2.1 c0 hk
          | true => exact ((posNodeB_iff n).mp h).2.2.2 c0 hk
      exact setChild_pos n k _ h (ih _ d hchild)

/-- All branches of `update1` append exactly `s` to the history. -/
theorem CTWContextTree.history_update1 (t : CTWContextTree) (s : Bool) :
    (t.update1 s).history = t.history ++ [s] := by
  unfold CTWContextTree.update1
  dsimp only
  repeat' split
  all_goals rfl

theorem CTWContextTree.history_update (t : CTWContextTree) (bs : List Bool) :
    (t.update bs).history = t.history ++ bs := by
  induction bs generalizing t with
  | nil => simp [CTWContextTree.update]
  | cons b rest ih =>
    show ((t.update1 b).update rest).history = _
    rw [ih, CTWContextTree.history_update1]
    simp

theorem CTWContextTree.depth_update (t : CTWContextTree) (bs : List Bool) :
    (t.update bs).depth = t.depth := by
  induction bs generalizing t with
  | nil => rfl
  | cons b rest ih =>
    show ((t.update1 b).update rest).depth = _
    rw [ih, CTWContextTree.depth_update1]

theorem CTWContextTree.update1_pos (t : CTWContextTree) (s : Bool)
    (h : posNodeB t.root = true) : posNodeB (t.update1 s).root = true := by
  unfold CTWContextTree.update1
  dsimp only
  repeat' split
  all_goals simp only []
  · exact h
  · exact h
  · exact setChild_pos t.root _ freshNode h freshNode_pos
  · exact updateContextUpdate_pos s t.history.reverse t.root t.depth h
  · exact h

theorem CTWContextTree.update_pos (t : CTWContextTree) (bs : List Bool)
    (h : posNodeB t.root = true) : posNodeB (t.update bs).root = true := by
  induction bs generalizing t with
  | nil => exact h
  | cons b rest ih => exact ih (t.update1 b) (t.update1_pos b h)

/-- `predict` as a quotient of root probabilities, valid whenever the
history is at least as long as the depth (so the uniform fallback branch
can only be hit by the empty query, where both sides are 1). -/
theorem CTWContextTree.predictVal_ratio (t : CTWContextTree) (bs : List Bool)
    (hp : posNodeB t.root = true) (hl : t.depth ≤ t.history.length) :
    t.predictVal bs = (t.update bs).root.prob / t.root.prob := by
  unfold CTWContextTree.predictVal
  split
  · rename_i hle
    have hnil : bs = [] := by
      cases bs with
      | nil => rfl
      | cons b rest => simp at hle; omega
    subst hnil
    have : t.update [] = t := rfl
    rw [this, div_self (ne_of_gt ((posNodeB_iff t.root).mp hp).2.1)]
    rfl
  · rfl

/-- The per-bit product of conditional predictions:
`∏_i predict(bs[i] | bs[0..i-1])`, each factor evaluated on the tree
after the prefix has been appended via `update`. -/
def CTWContextTree.prodPredict : CTWContextTree → List Bool → ℚ
  | _, [] => 1
  | t, b :: rest => t.predictVal [b] * CTWContextTree.prodPredict (t.update [b]) rest

/-- C7, amended: for a tree whose nodes all carry positive (finite
log-space) statistics — true of every reachable state — and whose history
is at least as long as the depth, `predict` satisfies the chain rule
`predict(bs) = ∏_i predict(bs[i] | bs[0..i-1])`.  When the history is
shorter than the depth the law fails (see the counterexample): the
uniform fallback multiplies in factors of 1/2 that the joint query does
not contain. -/
theorem ctw_predict_chain_rule (t : CTWContextTree) (bs : List Bool)
    (hp : posNodeB t.root = true) (hl : t.depth ≤ t.history.length) :
    t.predictVal bs = t.prodPredict bs := by
  induction bs generalizing t with
  | nil =>
    rw [CTWContextTree.prodPredict,
      CTWContextTree.predictVal_ratio t [] hp hl]
    have : t.update [] = t := rfl
    rw [this, div_self (ne_of_gt ((posNodeB_iff t.root).mp hp).2.1)]
  | cons b rest ih =>
    have hp1 : posNodeB (t.update [b]).root = true := t.update_pos [b] hp
    have hl1 : (t.update [b]).depth ≤ (t.update [b]).history.length := by
      rw [CTWContextTree.depth_update, CTWContextTree.history_update]
      simp
      omega
    rw [CTWContextTree.prodPredict, ← ih (t.update [b]) hp1 hl1,
      CTWContextTree.predictVal_ratio t (b :: rest) hp hl,
      CTWContextTree.predictVal_ratio t [b] hp hl,
      CTWContextTree.predictVal_ratio (t.update [b]) rest hp1 hl1]
    have hstep : t.update (b :: rest) = (t.update [b]).update rest := rfl
    rw [hstep]
    have ha : (t.update [b]).root.prob ≠ 0 :=
      ne_of_gt ((posNodeB_iff _).mp hp1).2.1
    rw [div_mul_div_comm, mul_comm (t.update [b]).root.prob
      ((t.update [b]).update rest).root.prob,
      mul_div_mul_right _ _ ha]

/-- Witness for `ctw_predict_chain_rule` at the depth-1 tree with history
`[1]` and query `[0, 1]`. -/
theorem ctw_predict_chain_rule_witness :
    posNodeB ((CTWContextTree.create 1).update1 true).root = true ∧
    ((CTWContextTree.create 1).update1 true).depth ≤
      ((CTWContextTree.create 1).update1 true).history.length ∧
    ((CTWContextTree.create 1).update1 true).predictVal [false, true] =
      ((CTWContextTree.create 1).update1 true).prodPredict [false, true] :=
  ⟨by simp [posNodeB, CTWContextTree.update1, CTWContextTree.create, freshNode],
   by decide,
   ctw_predict_chain_rule ((CTWContextTree.create 1).update1 true) [false, true]
     (by simp [posNodeB, CTWContextTree.update1, CTWContextTree.create, freshNode])
     (by decide)⟩

/-- Counterexample to C7 as stated: on the fresh depth-1 tree (history
shorter than the depth), `predict([1,1]) = 3/4` but the per-bit product
is `predict([1]) · predict([1] | [1]) = (1/2) · (3/4) = 3/8`. -/
theorem ctw_predict_chain_rule_counterexample :
    (CTWContextTree.create 1).predictVal [true, true] = 3/4 ∧
    (CTWContextTree.create 1).prodPredict [true, true] = 3/8 ∧
    (3/4 : ℚ) ≠ 3/8 := by
  refine ⟨?_, ?_, by norm_num⟩ <;>
    norm_num [CTWContextTree.prodPredict, CTWContextTree.predictVal,
      CTWContextTree.create, CTWContextTree.update,
      CTWContextTree.update1, updateContextUpdate, CTWContextTreeNode.updateNode,
      CTWContextTreeNode.updateLogProbability, CTWContextTreeNode.isLeafNode,
      CTWContextTreeNode.childProbProduct, CTWContextTreeNode.ktMultiplier,
      CTWContextTreeNode.symbolCount, CTWContextTreeNode.visits,
      CTWContextTreeNode.child, CTWContextTreeNode.setChild,
      CTWContextTreeNode.c0, CTWContextTreeNode.c1, CTWContextTreeNode.kt,
      CTWContextTreeNode.prob, CTWContextTreeNode.child0, CTWContextTreeNode.child1,
      freshNode]

/-! ## Claim C1: what a matched update/revert round trip restores

`update(bs)` followed by `revert(len(bs))` does *not* restore the tree
bitwise: `update_context` creates fresh context-path nodes that the
revert does not always delete (deletion only looks at the child under the
*reverted symbol*), reverts can delete pre-existing zero-visit children,
`tree_size` moves accordingly, and a leaf-status flip even changes the
root's weighted probability.  What the round trip does restore is every
node's symbol counts, the KT estimate of every visited node, and the
history.  The relation `nodeEquivB` makes this precise: two nodes are
related when their counts agree, their KT estimates agree unless the node
is unvisited, and their children agree up to entirely-zero subtrees on
either side. -/

/-- Every node in the subtree has both symbol counts equal to zero. -/
def allZeroB : CTWContextTreeNode → Bool
  | .mk a b _ _ x y =>
    decide (a = 0) && decide (b = 0) &&
    (match x with | none => true | some c => allZeroB c) &&
    (match y with | none => true | some c => allZeroB c)

/-- Observational equality of CTW statistics: counts agree everywhere,
KT estimates agree on visited nodes, and a child present on one side only
must be an all-zero subtree. -/
def nodeEquivB : CTWContextTreeNode → CTWContextTreeNode → Bool
  | .mk a b k _ x0 x1, .mk a' b' k' _ y0 y1 =>
    decide (a = a') && decide (b = b') &&
    (decide (a + b = 0) || decide (k = k')) &&
    (match x0, y0 with
     | none, none => true
     | some c, none => allZeroB c
     | none, some c => allZeroB c
     | some c, some c' => nodeEquivB c c') &&
    (match x1, y1 with
     | none, none => true
     | some c, none => allZeroB c
     | none, some c => allZeroB c
     | some c, some c' => nodeEquivB c c')

/-- `nodeEquivB` lifted to optional children. -/
def childEquivB : Option CTWContextTreeNode → Option CTWContextTreeNode → Bool
  | none, none => true
  | some c, none => allZeroB c
  | none, some c => allZeroB c
  | some c, some c' => nodeEquivB c c'

/-- Zero-visit nodes carry no statistics anywhere below them.  This holds
in every reachable tree state (fresh nodes are all-zero and a node is
only ever updated together with its whole context path). -/
def zeroCleanB : CTWContextTreeNode → Bool
  | .mk a b k p x y =>
    (decide (a + b ≠ 0) || allZeroB (.mk a b k p x y)) &&
    (match x with | none => true | some c => zeroCleanB c) &&
    (match y with | none => true | some c => zeroCleanB c)

theorem allZeroB_ext (n : CTWContextTreeNode) :
    allZeroB n = true ↔
      n.c0 = 0 ∧ n.c1 = 0 ∧
      (∀ c, n.child0 = some c → allZeroB c = true) ∧
      (∀ c, n.child1 = some c → allZeroB c = true) := by
  rcases n with ⟨a, b, k, p, x, y⟩
  rcases x with _ | cx <;> rcases y with _ | cy <;>
    simp [allZeroB, CTWContextTreeNode.c0, CTWContextTreeNode.c1,
      CTWContextTreeNode.child0, CTWContextTreeNode.child1, and_assoc]

theorem nodeEquivB_ext (n n' : CTWContextTreeNode) :
    nodeEquivB n n' = true ↔
      n.c0 = n'.c0 ∧ n.c1 = n'.c1 ∧
      (n.c0 + n.c1 = 0 ∨ n.kt = n'.kt) ∧
      childEquivB n.child0 n'.child0 = true ∧
      childEquivB n.child1 n'.child1 = true := by
  rcases n with ⟨a, b, k, p, x, y⟩
  rcases n' with ⟨a', b', k', p', x', y'⟩
  rcases x with _ | cx <;> rcases x' with _ | cx' <;>
    rcases y with _ | cy <;> rcases y' with _ | cy' <;>
    simp [nodeEquivB, childEquivB, CTWContextTreeNode.c0, CTWContextTreeNode.c1,
      CTWContextTreeNode.kt, CTWContextTreeNode.child0,
      CTWContextTreeNode.child1, and_assoc]

theorem zeroCleanB_ext (n : CTWContextTreeNode) :
    zeroCleanB n = true ↔
      (n.c0 + n.c1 = 0 → allZeroB n = true) ∧
      (∀ c, n.child0 = some c → zeroCleanB c = true) ∧
      (∀ c, n.child1 = some c → zeroCleanB c = true) := by
  rcases n with ⟨a, b, k, p, x, y⟩
  rcases x with _ | cx <;> rcases y with _ | cy <;>
    simp [zeroCleanB, CTWContextTreeNode.c0, CTWContextTreeNode.c1,
      CTWContextTreeNode.child0, CTWContextTreeNode.child1, and_assoc,
      Decidable.imp_iff_not_or]

theorem allZeroB_visits (n : CTWContextTreeNode) (h : allZeroB n = true) :
    n.visits = 0 := by
  rw [allZeroB_ext] at h
  unfold CTWContextTreeNode.visits
  omega

theorem allZeroB_fresh : allZeroB freshNode = true := by
  simp [allZeroB, freshNode]

theorem zeroCleanB_fresh : zeroCleanB freshNode = true := by
  simp [zeroCleanB, freshNode, allZeroB]

theorem nodeEquivB_refl : ∀ n : CTWContextTreeNode, nodeEquivB n n = true
  | .mk a b k p none none => by simp [nodeEquivB]
  | .mk a b k p (some c) none => by
    simp [nodeEquivB, nodeEquivB_refl c]
  | .mk a b k p none (some d) => by
    simp [nodeEquivB, nodeEquivB_refl d]
  | .mk a b k p (some c) (some d) => by
    simp [nodeEquivB, nodeEquivB_refl c, nodeEquivB_refl d]

theorem childEquivB_refl (o : Option CTWContextTreeNode) :
    childEquivB o o = true := by
  cases o with
  | none => rfl
  | some c => simpa [childEquivB] using nodeEquivB_refl c

/-- Structural induction for CTW nodes through their optional children. -/
theorem CTWContextTreeNode.strongInduction {P : CTWContextTreeNode → Prop}
    (h : ∀ a b k p x y,
      (∀ c, x = some c → P c) → (∀ c, y = some c → P c) →
      P (CTWContextTreeNode.mk a b k p x y)) :
    ∀ n, P n
  | .mk a b k p none none =>
    h a b k p none none (fun c hc => by cases hc) (fun c hc => by cases hc)
  | .mk a b k p (some cx) none =>
    h a b k p (some cx) none
      (fun c hc => by cases hc; exact CTWContextTreeNode.strongInduction h cx)
      (fun c hc => by cases hc)
  | .mk a b k p none (some cy) =>
    h a b k p none (some cy)
      (fun c hc => by cases hc)
      (fun c hc => by cases hc; exact CTWContextTreeNode.strongInduction h cy)
  | .mk a b k p (some cx) (some cy) =>
    h a b k p (some cx) (some cy)
      (fun c hc => by cases hc; exact CTWContextTreeNode.strongInduction h cx)
      (fun c hc => by cases hc; exact CTWContextTreeNode.strongInduction h cy)

theorem childEquivB_none_right (o : Option CTWContextTreeNode) :
    childEquivB o none =
      (match o with | none => true | some c => allZeroB c) := by
  cases o <;> rfl

theorem childEquivB_none_left (o : Option CTWContextTreeNode) :
    childEquivB none o =
      (match o with | none => true | some c => allZeroB c) := by
  cases o <;> rfl

/-- Statistics-equivalence transports all-zero-ness (left to right). -/
theorem allZeroB_of_equiv : ∀ m : CTWContextTreeNode, ∀ n,
    nodeEquivB m n = true → allZeroB m = true → allZeroB n = true := by
  intro m
  induction m using CTWContextTreeNode.strongInduction with
  | h a b k p x y ih0 ih1 =>
    intro n he hz
    rw [nodeEquivB_ext] at he
    rw [allZeroB_ext] at hz ⊢
    refine ⟨by omega, by omega, ?_, ?_⟩
    · intro c hc
      have h0 := he.2.2.2.1
      rw [hc] at h0
      rcases hx : x with _ | cx
      · rw [hx] at h0; simpa [childEquivB] using h0
      · rw [hx] at h0
        simp only [childEquivB] at h0
        exact ih0 cx hx c h0 (hz.2.2.1 cx (by simp [hx, CTWContextTreeNode.child0]))
    · intro c hc
      have h0 := he.2.2.2.2
      rw [hc] at h0
      rcases hy : y with _ | cy
      · rw [hy] at h0; simpa [childEquivB] using h0
      · rw [hy] at h0
        simp only [childEquivB] at h0
        exact ih1 cy hy c h0 (hz.2.2.2 cy (by simp [hy, CTWContextTreeNode.child1]))

/-- Statistics-equivalence transports all-zero-ness (right to left). -/
theorem allZeroB_of_equiv_rev : ∀ m : CTWContextTreeNode, ∀ n,
    nodeEquivB m n = true → allZeroB n = true → allZeroB m = true := by
  intro m
  induction m using CTWContextTreeNode.strongInduction with
  | h a b k p x y ih0 ih1 =>
    intro n he hz
    rw [nodeEquivB_ext] at he
    rw [allZeroB_ext] at hz ⊢
    have hc0 : (CTWContextTreeNode.mk a b k p x y).c0 = n.c0 := he.1
    have hc1 : (CTWContextTreeNode.mk a b k p x y).c1 = n.c1 := he.2.1
    refine ⟨by rw [hc0]; exact hz.1, by rw [hc1]; exact hz.2.1, ?_, ?_⟩
    · intro c hc
      have h0 := he.2.2.2.1
      rw [hc] at h0
      rcases hn : n.child0 with _ | cn
      · rw [hn] at h0; simpa [childEquivB] using h0
      · rw [hn] at h0
        simp only [childEquivB] at h0
        exact ih0 c hc cn h0 (hz.2.2.1 cn hn)
    · intro c hc
      have h0 := he.2.2.2.2
      rw [hc] at h0
      rcases hn : n.child1 with _ | cn
      · rw [hn] at h0; simpa [childEquivB] using h0
      · rw [hn] at h0
        simp only [childEquivB] at h0
        exact ih1 c hc cn h0 (hz.2.2.2 cn hn)

/-- Two all-zero subtrees are statistics-equivalent. -/
theorem nodeEquivB_of_allZero : ∀ m : CTWContextTreeNode, ∀ n,
    allZeroB m = true → allZeroB n = true → nodeEquivB m n = true := by
  intro m
  induction m using CTWContextTreeNode.strongInduction with
  | h a b k p x y ih0 ih1 =>
    intro n hm hn
    rw [allZeroB_ext] at hm hn
    rw [nodeEquivB_ext]
    refine ⟨by rw [hm.1, hn.1], by rw [hm.2.1, hn.2.1], ?_, ?_, ?_⟩
    · left
      have h0 : (CTWContextTreeNode.mk a b k p x y).c0 = 0 := hm.1
      have h1 : (CTWContextTreeNode.mk a b k p x y).c1 = 0 := hm.2.1
      omega
    · rcases hx : x with _ | cx <;> rcases hn0 : n.child0 with _ | cn
      · rfl
      · rw [show (CTWContextTreeNode.mk a b k p none y).child0 = none from rfl]
        rw [childEquivB_none_left]
        simpa using hn.2.2.1 cn hn0
      · rw [show (CTWContextTreeNode.mk a b k p (some cx) y).child0 = some cx
          from rfl]
        rw [childEquivB_none_right]
        exact hm.2.2.1 cx (by rw [hx]; rfl)
      · rw [show (CTWContextTreeNode.mk a b k p (some cx) y).child0 = some cx
          from rfl]
        exact ih0 cx hx cn (hm.2.2.1 cx (by rw [hx]; rfl)) (hn.2.2.1 cn hn0)
    · rcases hy : y with _ | cy <;> rcases hn1 : n.child1 with _ | cn
      · rfl
      · rw [show (CTWContextTreeNode.mk a b k p x none).child1 = none from rfl]
        rw [childEquivB_none_left]
        simpa using hn.2.2.2 cn hn1
      · rw [show (CTWContextTreeNode.mk a b k p x (some cy)).child1 = some cy
          from rfl]
        rw [childEquivB_none_right]
        exact hm.2.2.2 cy (by rw [hy]; rfl)
      · rw [show (CTWContextTreeNode.mk a b k p x (some cy)).child1 = some cy
          from rfl]
        exact ih1 cy hy cn (hm.2.2.2 cy (by rw [hy]; rfl)) (hn.2.2.2 cn hn1)

/-- Equivalence with a fresh node is exactly all-zero-ness. -/
theorem nodeEquivB_fresh_iff (n : CTWContextTreeNode) :
    nodeEquivB n freshNode = true ↔ allZeroB n = true := by
  constructor
  · intro h
    exact allZeroB_of_equiv_rev n freshNode h allZeroB_fresh
  · intro h
    exact nodeEquivB_of_allZero n freshNode h allZeroB_fresh

theorem nodeEquivB_fresh_iff_left (n : CTWContextTreeNode) :
    nodeEquivB freshNode n = true ↔ allZeroB n = true := by
  constructor
  · intro h
    exact allZeroB_of_equiv freshNode n h allZeroB_fresh
  · intro h
    exact nodeEquivB_of_allZero freshNode n allZeroB_fresh h

theorem nodeEquivB_symm : ∀ m : CTWContextTreeNode, ∀ n,
    nodeEquivB m n = true → nodeEquivB n m = true := by
  intro m
  induction m using CTWContextTreeNode.strongInduction with
  | h a b k p x y ih0 ih1 =>
    intro n he
    rw [nodeEquivB_ext] at he ⊢
    refine ⟨he.1.symm, he.2.1.symm, ?_, ?_, ?_⟩
    · rcases he.2.2.1 with h0 | h0
      · left; omega
      · right; exact h0.symm
    · rcases hx : x with _ | cx <;> rcases hn : n.child0 with _ | cn
      · rfl
      · have h0 := he.2.2.2.1
        rw [hx, hn] at h0
        simpa [childEquivB, CTWContextTreeNode.child0] using h0
      · have h0 := he.2.2.2.1
        rw [hx, hn] at h0
        simpa [childEquivB, CTWContextTreeNode.child0] using h0
      · refine ih0 cx hx cn ?_
        have h0 := he.2.2.2.1
        rw [hx, hn] at h0
        simpa [childEquivB, CTWContextTreeNode.child0] using h0
    · rcases hy : y with _ | cy <;> rcases hn : n.child1 with _ | cn
      · rfl
      · have h0 := he.2.2.2.2
        rw [hy, hn] at h0
        simpa [childEquivB, CTWContextTreeNode.child1] using h0
      · have h0 := he.2.2.2.2
        rw [hy, hn] at h0
        simpa [childEquivB, CTWContextTreeNode.child1] using h0
      · refine ih1 cy hy cn ?_
        have h0 := he.2.2.2.2
        rw [hy, hn] at h0
        simpa [childEquivB, CTWContextTreeNode.child1] using h0

/-- Transitivity of child-slot equivalence, given transitivity for the
nodes inside the first slot. -/
theorem childEquivB_trans_aux (o1 o2 o3 : Option CTWContextTreeNode)
    (ih : ∀ c, o1 = some c → ∀ n q, nodeEquivB c n = true →
      nodeEquivB n q = true → nodeEquivB c q = true)
    (h0 : childEquivB o1 o2 = true) (h1 : childEquivB o2 o3 = true) :
    childEquivB o1 o3 = true := by
  rcases o1 with _ | c1 <;> rcases o2 with _ | c2 <;> rcases o3 with _ | c3 <;>
    simp only [childEquivB] at h0 h1 ⊢
  · exact h1
  · exact allZeroB_of_equiv c2 c3 h1 h0
  · exact h0
  · exact nodeEquivB_of_allZero c1 c3 h0 h1
  · exact allZeroB_of_equiv_rev c1 c2 h0 h1
  · exact ih c1 rfl c2 c3 h0 h1

theorem nodeEquivB_trans : ∀ m : CTWContextTreeNode, ∀ n q,
    nodeEquivB m n = true → nodeEquivB n q = true → nodeEquivB m q = true := by
  intro m
  induction m using CTWContextTreeNode.strongInduction with
  | h a b k p x y ih0 ih1 =>
    intro n q hmn hnq
    rw [nodeEquivB_ext] at hmn hnq ⊢
    refine ⟨hmn.1.trans hnq.1, hmn.2.1.trans hnq.2.1, ?_, ?_, ?_⟩
    · rcases hmn.2.2.1 with h0 | h0
      · left; exact h0
      · rcases hnq.2.2.1 with h1 | h1
        · left
          have e0 : (CTWContextTreeNode.mk a b k p x y).c0 = n.c0 := hmn.1
          have e1 : (CTWContextTreeNode.mk a b k p x y).c1 = n.c1 := hmn.2.1
          omega
        · right; exact h0.trans h1
    · exact childEquivB_trans_aux _ n.child0 q.child0
        (fun c hc => ih0 c hc) hmn.2.2.2.1 hnq.2.2.2.1
    · exact childEquivB_trans_aux _ n.child1 q.child1
        (fun c hc => ih1 c hc) hmn.2.2.2.2 hnq.2.2.2.2

/-- All-zero subtrees are zero-clean. -/
theorem zeroCleanB_of_allZero : ∀ n : CTWContextTreeNode,
    allZeroB n = true → zeroCleanB n = true := by
  intro n
  induction n using CTWContextTreeNode.strongInduction with
  | h a b k p x y ih0 ih1 =>
    intro hz
    rw [zeroCleanB_ext]
    rw [allZeroB_ext] at hz
    refine ⟨fun _ => ?_, ?_, ?_⟩
    · rw [allZeroB_ext]; exact hz
    · exact fun c hc => ih0 c hc (hz.2.2.1 c hc)
    · exact fun c hc => ih1 c hc (hz.2.2.2 c hc)

/-- Zero-cleanliness of a child slot, given it for the nodes inside the
first slot. -/
theorem childZeroClean_aux (o1 o2 : Option CTWContextTreeNode)
    (ih : ∀ c, o1 = some c → ∀ n, nodeEquivB c n = true →
      zeroCleanB n = true → zeroCleanB c = true)
    (he : childEquivB o1 o2 = true)
    (hz : ∀ c, o2 = some c → zeroCleanB c = true) :
    ∀ c, o1 = some c → zeroCleanB c = true := by
  rcases o1 with _ | c1 <;> rcases o2 with _ | c2 <;>
    simp only [childEquivB] at he <;> intro c hc <;> cases hc
  · exact zeroCleanB_of_allZero c1 he
  · exact ih c1 rfl c2 he (hz c2 rfl)

/-- Zero-cleanliness transfers backwards across statistics-equivalence:
if `n` is zero-clean and `m` is equivalent to it, `m` is zero-clean. -/
theorem zeroCleanB_of_equiv : ∀ m : CTWContextTreeNode, ∀ n,
    nodeEquivB m n = true → zeroCleanB n = true → zeroCleanB m = true := by
  intro m
  induction m using CTWContextTreeNode.strongInduction with
  | h a b k p x y ih0 ih1 =>
    intro n he hz
    rw [zeroCleanB_ext]
    rw [nodeEquivB_ext] at he
    rw [zeroCleanB_ext] at hz
    refine ⟨?_, ?_, ?_⟩
    · intro h0
      have hv : n.c0 + n.c1 = 0 := by
        have e0 : (CTWContextTreeNode.mk a b k p x y).c0 = n.c0 := he.1
        have e1 : (CTWContextTreeNode.mk a b k p x y).c1 = n.c1 := he.2.1
        omega
      exact allZeroB_of_equiv_rev _ n
        (by rw [nodeEquivB_ext]; exact he) (hz.1 hv)
    · exact childZeroClean_aux _ n.child0 (fun c hc => ih0 c hc)
        he.2.2.2.1 hz.2.1
    · exact childZeroClean_aux _ n.child1 (fun c hc => ih1 c hc)
        he.2.2.2.2 hz.2.2

/-! ### Field characterizations of the node operations -/

theorem child_setChild_same (n : CTWContextTreeNode) (k : Bool)
    (c : Option CTWContextTreeNode) : (n.setChild k c).child k = c := by
  cases k <;> rfl

theorem child_setChild_other (n : CTWContextTreeNode) (k σ : Bool)
    (c : Option CTWContextTreeNode) (h : σ ≠ k) :
    (n.setChild k c).child σ = n.child σ := by
  cases k <;> cases σ <;> first | rfl | exact absurd rfl h

theorem setChild_scalars (n : CTWContextTreeNode) (k : Bool)
    (c : Option CTWContextTreeNode) :
    (n.setChild k c).c0 = n.c0 ∧ (n.setChild k c).c1 = n.c1 ∧
    (n.setChild k c).kt = n.kt := by
  cases k <;> exact ⟨rfl, rfl, rfl⟩

theorem child_updateNode (n : CTWContextTreeNode) (s σ : Bool) :
    (n.updateNode s).child σ = n.child σ := by
  obtain ⟨h0, h1⟩ := CTWContextTreeNode.updateNode_children n s
  cases σ <;> simp [CTWContextTreeNode.child, h0, h1]

/-- The KT multiplier used by `update(s)`, as a function of the counts. -/
def updMult (a b : Nat) (s : Bool) : ℚ :=
  (if s then ((b : ℚ) + 1/2) else ((a : ℚ) + 1/2)) / (((a : ℚ) + (b : ℚ)) + 1)

/-- The KT multiplier used by `revert(s)` (computed on the post-decrement
counts), as a function of the pre-decrement counts. -/
def revMult (a b : Nat) (s : Bool) : ℚ :=
  if s then (((b - 1 : ℕ) : ℚ) + 1/2) / (((a : ℚ) + ((b - 1 : ℕ) : ℚ)) + 1)
  else (((a - 1 : ℕ) : ℚ) + 1/2) / ((((a - 1 : ℕ) : ℚ) + (b : ℚ)) + 1)

theorem updMult_eq_ktMultiplier (n : CTWContextTreeNode) (s : Bool) :
    n.ktMultiplier s = updMult n.c0 n.c1 s := by
  cases s <;>
    simp [CTWContextTreeNode.ktMultiplier, updMult,
      CTWContextTreeNode.symbolCount, CTWContextTreeNode.visits]

theorem updMult_pos (a b : Nat) (s : Bool) : 0 < updMult a b s := by
  unfold updMult
  apply div_pos
  · cases s <;> simp <;> positivity
  · positivity

theorem revMult_pos (a b : Nat) (s : Bool) : 0 < revMult a b s := by
  unfold revMult
  cases s <;> simp <;> apply div_pos <;> positivity

/-- Reverting immediately after updating divides by exactly the factor the
update multiplied by. -/
theorem revMult_after_update (a b : Nat) (s : Bool) :
    revMult (if s then a else a + 1) (if s then b + 1 else b) s =
      updMult a b s := by
  cases s <;> simp [revMult, updMult]

theorem updateNode_fields (n : CTWContextTreeNode) (s : Bool) :
    (n.updateNode s).c0 = (if s then n.c0 else n.c0 + 1) ∧
    (n.updateNode s).c1 = (if s then n.c1 + 1 else n.c1) ∧
    (n.updateNode s).kt = n.kt * updMult n.c0 n.c1 s := by
  have hm := updMult_eq_ktMultiplier n s
  unfold CTWContextTreeNode.updateNode
  obtain ⟨p0, p1, pk, _, _⟩ := CTWContextTreeNode.updateLogProbability_parts
    (CTWContextTreeNode.mk n.c0 n.c1 (n.kt * n.ktMultiplier s) n.prob
      n.child0 n.child1)
  cases s <;>
    simp_all [CTWContextTreeNode.c0_mk, CTWContextTreeNode.c1_mk,
      CTWContextTreeNode.kt_mk]

theorem uLP_c0 (n : CTWContextTreeNode) : n.updateLogProbability.c0 = n.c0 :=
  (CTWContextTreeNode.updateLogProbability_parts n).1

theorem uLP_c1 (n : CTWContextTreeNode) : n.updateLogProbability.c1 = n.c1 :=
  (CTWContextTreeNode.updateLogProbability_parts n).2.1

theorem uLP_kt (n : CTWContextTreeNode) : n.updateLogProbability.kt = n.kt :=
  (CTWContextTreeNode.updateLogProbability_parts n).2.2.1

theorem uLP_child0 (n : CTWContextTreeNode) :
    n.updateLogProbability.child0 = n.child0 :=
  (CTWContextTreeNode.updateLogProbability_parts n).2.2.2.1

theorem uLP_child1 (n : CTWContextTreeNode) :
    n.updateLogProbability.child1 = n.child1 :=
  (CTWContextTreeNode.updateLogProbability_parts n).2.2.2.2

theorem revertNode_fields (n : CTWContextTreeNode) (s : Bool) :
    (n.revertNode s).1.c0 = (if s then n.c0 else n.c0 - 1) ∧
    (n.revertNode s).1.c1 = (if s then n.c1 - 1 else n.c1) ∧
    (n.revertNode s).1.kt = n.kt / revMult n.c0 n.c1 s := by
  rcases n with ⟨a, b, k, p, x, y⟩
  cases s <;>
    simp only [CTWContextTreeNode.revertNode, CTWContextTreeNode.child,
      CTWContextTreeNode.setChild, CTWContextTreeNode.c0_mk,
      CTWContextTreeNode.c1_mk, CTWContextTreeNode.kt_mk,
      CTWContextTreeNode.prob_mk, CTWContextTreeNode.child0_mk,
      CTWContextTreeNode.child1_mk, uLP_c0, uLP_c1, uLP_kt,
      Bool.false_eq_true, if_true, if_false, revMult,
      CTWContextTreeNode.ktMultiplier, CTWContextTreeNode.symbolCount,
      CTWContextTreeNode.visits] <;>
    refine ⟨trivial, trivial, ?_⟩ <;>
    · push_cast
      ring_nf

/-- The child under the reverted symbol after `revertNode`: deleted when
it had zero visits, otherwise unchanged. -/
theorem revertNode_child_s (n : CTWContextTreeNode) (s : Bool) :
    (n.revertNode s).1.child s =
      (match n.child s with
       | some c => if c.visits = 0 then none else some c
       | none => none) := by
  rcases n with ⟨a, b, k, p, x, y⟩
  cases s <;> rcases x with _ | cx <;> rcases y with _ | cy <;>
    simp only [CTWContextTreeNode.revertNode, CTWContextTreeNode.child,
      CTWContextTreeNode.setChild, CTWContextTreeNode.c0_mk,
      CTWContextTreeNode.c1_mk, CTWContextTreeNode.kt_mk,
      CTWContextTreeNode.prob_mk, CTWContextTreeNode.child0_mk,
      CTWContextTreeNode.child1_mk, uLP_child0, uLP_child1,
      Bool.false_eq_true, if_true, if_false] <;>
    first
      | rfl
      | (split <;>
          simp only [CTWContextTreeNode.child0_mk, CTWContextTreeNode.child1_mk])

/-- The child opposite the reverted symbol is untouched by `revertNode`. -/
theorem revertNode_child_other (n : CTWContextTreeNode) (s σ : Bool)
    (h : σ ≠ s) : (n.revertNode s).1.child σ = n.child σ := by
  rcases n with ⟨a, b, k, p, x, y⟩
  cases s <;> cases σ <;> try exact absurd rfl h
  all_goals
    rcases x with _ | cx <;> rcases y with _ | cy <;>
      simp only [CTWContextTreeNode.revertNode, CTWContextTreeNode.child,
        CTWContextTreeNode.setChild, CTWContextTreeNode.c0_mk,
        CTWContextTreeNode.c1_mk, CTWContextTreeNode.kt_mk,
        CTWContextTreeNode.prob_mk, CTWContextTreeNode.child0_mk,
        CTWContextTreeNode.child1_mk, uLP_child0, uLP_child1,
        Bool.false_eq_true, if_true, if_false] <;>
      first
        | rfl
        | (split <;>
            simp only [CTWContextTreeNode.child0_mk,
              CTWContextTreeNode.child1_mk])

/-- `nodeEquivB` in child-indexed form. -/
theorem nodeEquivB_ext_child (n n' : CTWContextTreeNode) :
    nodeEquivB n n' = true ↔
      n.c0 = n'.c0 ∧ n.c1 = n'.c1 ∧ (n.c0 + n.c1 = 0 ∨ n.kt = n'.kt) ∧
      ∀ σ : Bool, childEquivB (n.child σ) (n'.child σ) = true := by
  rw [nodeEquivB_ext]
  constructor
  · intro h
    refine ⟨h.1, h.2.1, h.2.2.1, ?_⟩
    intro σ
    cases σ
    · exact h.2.2.2.1
    · exact h.2.2.2.2
  · intro h
    exact ⟨h.1, h.2.1, h.2.2.1, h.2.2.2 false, h.2.2.2 true⟩

theorem equiv_visits (n n' : CTWContextTreeNode)
    (h : nodeEquivB n n' = true) : n.visits = n'.visits := by
  rw [nodeEquivB_ext] at h
  unfold CTWContextTreeNode.visits
  omega

theorem zeroClean_child (n : CTWContextTreeNode) (σ : Bool)
    (c : CTWContextTreeNode) (hc : n.child σ = some c)
    (hz : zeroCleanB n = true) : zeroCleanB c = true := by
  rw [zeroCleanB_ext] at hz
  cases σ
  · exact hz.2.1 c hc
  · exact hz.2.2 c hc

theorem allZero_of_zeroClean_child (n : CTWContextTreeNode) (σ : Bool)
    (c : CTWContextTreeNode) (hc : n.child σ = some c)
    (hz : zeroCleanB n = true) (hv : c.visits = 0) : allZeroB c = true := by
  have h0 := zeroClean_child n σ c hc hz
  rw [zeroCleanB_ext] at h0
  apply h0.1
  unfold CTWContextTreeNode.visits at hv
  omega

/-- Congruence of `revertNode` with respect to statistics-equivalence. -/
theorem revertNode_equiv (n n' : CTWContextTreeNode) (s : Bool)
    (h : nodeEquivB n n' = true) :
    nodeEquivB (n.revertNode s).1 (n'.revertNode s).1 = true := by
  have hcn := (nodeEquivB_ext_child n n').mp h
  obtain ⟨f0, f1, fk⟩ := revertNode_fields n s
  obtain ⟨g0, g1, gk⟩ := revertNode_fields n' s
  rw [nodeEquivB_ext_child]
  refine ⟨?_, ?_, ?_, ?_⟩
  · rw [f0, g0, hcn.1]
  · rw [f1, g1, hcn.2.1]
  · by_cases hv : (n.revertNode s).1.c0 + (n.revertNode s).1.c1 = 0
    · left; exact hv
    · right
      have hnz : n.c0 + n.c1 ≠ 0 := by
        rw [f0, f1] at hv
        cases s <;> simp at hv <;> omega
      have hkt : n.kt = n'.kt := by
        rcases hcn.2.2.1 with h0 | h0
        · exact absurd h0 hnz
        · exact h0
      rw [fk, gk, hkt, hcn.1, hcn.2.1]
  · intro σ
    by_cases hσ : σ = s
    · subst hσ
      rw [revertNode_child_s, revertNode_child_s]
      have h0 := hcn.2.2.2 σ
      rcases hx : n.child σ with _ | cx <;> rcases hy : n'.child σ with _ | cy <;>
        rw [hx, hy] at h0 <;> simp only [childEquivB] at h0 ⊢
      · rw [if_pos (allZeroB_visits cy h0)]
      · rw [if_pos (allZeroB_visits cx h0)]
      · have hv := equiv_visits cx cy h0
        by_cases hz : cx.visits = 0
        · rw [if_pos hz, if_pos (hv ▸ hz)]
        · rw [if_neg hz, if_neg (hv ▸ hz)]
          simpa [childEquivB] using h0
    · rw [revertNode_child_other n s σ hσ, revertNode_child_other n' s σ hσ]
      exact hcn.2.2.2 σ

/-- Congruence of `setChild` with respect to statistics-equivalence. -/
theorem setChild_equiv (n n' : CTWContextTreeNode) (k : Bool)
    (o o' : Option CTWContextTreeNode) (h : nodeEquivB n n' = true)
    (hc : childEquivB o o' = true) :
    nodeEquivB (n.setChild k o) (n'.setChild k o') = true := by
  have hcn := (nodeEquivB_ext_child n n').mp h
  obtain ⟨s0, s1, sk⟩ := setChild_scalars n k o
  obtain ⟨t0, t1, tk⟩ := setChild_scalars n' k o'
  rw [nodeEquivB_ext_child]
  refine ⟨by rw [s0, t0, hcn.1], by rw [s1, t1, hcn.2.1], ?_, ?_⟩
  · rcases hcn.2.2.1 with h0 | h0
    · left; rw [s0, s1]; exact h0
    · right; rw [sk, tk, h0]
  · intro σ
    by_cases hσ : σ = k
    · subst hσ
      rw [child_setChild_same, child_setChild_same]
      exact hc
    · rw [child_setChild_other n k σ o hσ, child_setChild_other n' k σ o' hσ]
      exact hcn.2.2.2 σ

/-- Congruence of the find-or-create child step. -/
theorem ensure_equiv (n n' : CTWContextTreeNode) (k : Bool)
    (h : nodeEquivB n n' = true) :
    nodeEquivB
      (match n.child k with | some c => c | none => freshNode)
      (match n'.child k with | some c => c | none => freshNode) = true := by
  have h0 := ((nodeEquivB_ext_child n n').mp h).2.2.2 k
  rcases hx : n.child k with _ | cx <;> rcases hy : n'.child k with _ | cy <;>
    rw [hx, hy] at h0 <;> simp only [childEquivB] at h0 ⊢
  · exact nodeEquivB_refl freshNode
  · exact (nodeEquivB_fresh_iff_left cy).mpr h0
  · exact (nodeEquivB_fresh_iff cx).mpr h0
  · exact h0

/-- Single-node sandwich: updating a node with `s` and immediately
reverting `s` restores its counts and KT estimate exactly; the only
possible change is the deletion of a zero-visit child under `s`, which by
zero-cleanliness is an all-zero subtree. -/
theorem updateRevertNode_equiv (n : CTWContextTreeNode) (s : Bool)
    (hz : zeroCleanB n = true) :
    nodeEquivB ((n.updateNode s).revertNode s).1 n = true := by
  obtain ⟨u0, u1, uk⟩ := updateNode_fields n s
  obtain ⟨f0, f1, fk⟩ := revertNode_fields (n.updateNode s) s
  rw [nodeEquivB_ext_child]
  refine ⟨?_, ?_, ?_, ?_⟩
  · rw [f0, u0]; cases s <;> simp
  · rw [f1, u1]; cases s <;> simp
  · right
    rw [fk, uk, u0, u1, revMult_after_update]
    exact mul_div_cancel_right₀ n.kt (ne_of_gt (updMult_pos n.c0 n.c1 s))
  · intro σ
    by_cases hσ : σ = s
    · subst hσ
      rw [revertNode_child_s, child_updateNode]
      rcases hx : n.child σ with _ | cx
      · simp [childEquivB]
      · simp only []
        by_cases hv : cx.visits = 0
        · rw [if_pos hv]
          simpa [childEquivB] using allZero_of_zeroClean_child n σ cx hx hz hv
        · rw [if_neg hv]
          simpa [childEquivB] using nodeEquivB_refl cx
    · rw [revertNode_child_other _ s σ hσ, child_updateNode]
      exact childEquivB_refl (n.child σ)

/-- The composite node step of the context walk: install a child under
`k`, update with `s`, replace that child with `c₂`, then revert `s`.
Provided `c₂` is statistics-equivalent to the original child slot and the
node is zero-clean, the result is statistics-equivalent to the original
node. -/
theorem updateRevertNode_step (n : CTWContextTreeNode) (s k : Bool)
    (c1 c2 : CTWContextTreeNode) (hz : zeroCleanB n = true)
    (hc : childEquivB (some c2) (n.child k) = true) :
    nodeEquivB
      ((((n.setChild k (some c1)).updateNode s).setChild k
        (some c2)).revertNode s).1 n = true := by
  obtain ⟨a0, a1, ak⟩ := setChild_scalars n k (some c1)
  obtain ⟨u0, u1, uk⟩ := updateNode_fields (n.setChild k (some c1)) s
  obtain ⟨b0, b1, bk⟩ := setChild_scalars
    ((n.setChild k (some c1)).updateNode s) k (some c2)
  obtain ⟨f0, f1, fk⟩ := revertNode_fields
    (((n.setChild k (some c1)).updateNode s).setChild k (some c2)) s
  have hM0 : (((n.setChild k (some c1)).updateNode s).setChild k
      (some c2)).c0 = (if s then n.c0 else n.c0 + 1) := by
    rw [b0, u0, a0]
  have hM1 : (((n.setChild k (some c1)).updateNode s).setChild k
      (some c2)).c1 = (if s then n.c1 + 1 else n.c1) := by
    rw [b1, u1, a1]
  have hMk : (((n.setChild k (some c1)).updateNode s).setChild k
      (some c2)).kt = n.kt * updMult n.c0 n.c1 s := by
    rw [bk, uk, ak, a0, a1]
  rw [nodeEquivB_ext_child]
  refine ⟨?_, ?_, ?_, ?_⟩
  · rw [f0, hM0]; cases s <;> simp
  · rw [f1, hM1]; cases s <;> simp
  · right
    rw [fk, hMk, hM0, hM1, revMult_after_update]
    exact mul_div_cancel_right₀ n.kt (ne_of_gt (updMult_pos n.c0 n.c1 s))
  · intro σ
    have hMchild : ∀ τ : Bool,
        ((((n.setChild k (some c1)).updateNode s).setChild k
          (some c2))).child τ =
          (if τ = k then some c2 else n.child τ) := by
      intro τ
      by_cases hτ : τ = k
      · subst hτ
        rw [child_setChild_same, if_pos rfl]
      · rw [if_neg hτ, child_setChild_other _ k τ _ hτ, child_updateNode,
          child_setChild_other _ k τ _ hτ]
    by_cases hσ : σ = s
    · subst hσ
      rw [revertNode_child_s, hMchild σ]
      by_cases hk : σ = k
      · rw [if_pos hk]
        subst hk
        simp only []
        by_cases hv : c2.visits = 0
        · rw [if_pos hv]
          rcases hx : n.child σ with _ | cx <;> rw [hx] at hc <;>
            simp only [childEquivB] at hc ⊢
          have hvx : cx.visits = 0 := by rw [← equiv_visits c2 cx hc]; exact hv
          exact allZero_of_zeroClean_child n σ cx hx hz hvx
        · rw [if_neg hv]
          exact hc
      · rw [if_neg hk]
        rcases hx : n.child σ with _ | cx
        · simp [childEquivB]
        · simp only []
          by_cases hv : cx.visits = 0
          · rw [if_pos hv]
            simpa [childEquivB] using
              allZero_of_zeroClean_child n σ cx hx hz hv
          · rw [if_neg hv]
            simpa [childEquivB] using nodeEquivB_refl cx
    · rw [revertNode_child_other _ s σ hσ, hMchild σ]
      by_cases hk : σ = k
      · rw [if_pos hk]
        subst hk
        exact hc
      · rw [if_neg hk]
        exact childEquivB_refl (n.child σ)

/-- The find-or-create step of `update_context()`. -/
def ensureChild (n : CTWContextTreeNode) (k : Bool) : CTWContextTreeNode :=
  match n.child k with
  | some c => c
  | none => freshNode

theorem matchPair_fst (n : CTWContextTreeNode) (k : Bool) :
    (match n.child k with
      | some c => (c, (0 : Nat))
      | none => (freshNode, 1) : CTWContextTreeNode × Nat).1 =
      ensureChild n k := by
  cases h : n.child k <;> simp [ensureChild, h]

theorem ensureChild_zeroClean (n : CTWContextTreeNode) (k : Bool)
    (hz : zeroCleanB n = true) : zeroCleanB (ensureChild n k) = true := by
  unfold ensureChild
  cases hx : n.child k with
  | none => exact zeroCleanB_fresh
  | some c => exact zeroClean_child n k c hx hz

theorem ensureChild_equiv (n n' : CTWContextTreeNode) (k : Bool)
    (h : nodeEquivB n n' = true) :
    nodeEquivB (ensureChild n k) (ensureChild n' k) = true := by
  unfold ensureChild
  exact ensure_equiv n n' k h

/-- Unfolded form of one cons step of the fused update walk. -/
theorem updateContextUpdate_cons (s k : Bool) (ks : List Bool)
    (n : CTWContextTreeNode) (d : Nat) :
    (updateContextUpdate s n (k :: ks) (d + 1)).1 =
      ((n.setChild k
        (some (updateContextUpdate s (ensureChild n k) ks d).1)).updateNode s) := by
  rw [updateContextUpdate]
  simp only [matchPair_fst]

/-- Unfolded form of one cons step of the fused revert walk. -/
theorem updateContextRevert_cons (s k : Bool) (ks : List Bool)
    (n : CTWContextTreeNode) (d : Nat) :
    (updateContextRevert s n (k :: ks) (d + 1)).1 =
      ((n.setChild k
        (some (updateContextRevert s (ensureChild n k) ks d).1)).revertNode s).1 := by
  rw [updateContextRevert]
  simp only [matchPair_fst]

/-- A node equivalent to the find-or-create value of a child slot is
child-slot-equivalent to that slot. -/
theorem childEquiv_of_ensure (m n : CTWContextTreeNode) (k : Bool)
    (h : nodeEquivB m (ensureChild n k) = true) :
    childEquivB (some m) (n.child k) = true := by
  unfold ensureChild at h
  rcases hx : n.child k with _ | cx <;> rw [hx] at h
  · simp only [childEquivB]
    exact (nodeEquivB_fresh_iff m).mp (by simpa using h)
  · simpa [childEquivB] using h

/-- Congruence of the fused revert walk with respect to
statistics-equivalence. -/
theorem updateContextRevert_equiv (s : Bool) :
    ∀ (ks : List Bool) (n n' : CTWContextTreeNode) (d : Nat),
      nodeEquivB n n' = true →
      nodeEquivB (updateContextRevert s n ks d).1
        (updateContextRevert s n' ks d).1 = true := by
  intro ks
  induction ks with
  | nil =>
    intro n n' d h
    cases d with
    | zero => simpa [updateContextRevert] using h
    | succ d =>
      simpa [updateContextRevert] using revertNode_equiv n n' s h
  | cons k ks ih =>
    intro n n' d h
    cases d with
    | zero => simpa [updateContextRevert] using h
    | succ d =>
      rw [updateContextRevert_cons, updateContextRevert_cons]
      apply revertNode_equiv
      apply setChild_equiv _ _ _ _ _ h
      simp only [childEquivB]
      exact ih (ensureChild n k) (ensureChild n' k) d
        (ensureChild_equiv n n' k h)

/-- The fused walk sandwich: running the update walk and then the revert
walk for the same symbol over the same context keys yields a tree
statistics-equivalent to the original, provided zero-visit nodes carry no
hidden statistics. -/
theorem updateContextSandwich (s : Bool) :
    ∀ (ks : List Bool) (n : CTWContextTreeNode) (d : Nat),
      zeroCleanB n = true →
      nodeEquivB
        (updateContextRevert s (updateContextUpdate s n ks d).1 ks d).1
        n = true := by
  intro ks
  induction ks with
  | nil =>
    intro n d hz
    cases d with
    | zero => simpa [updateContextUpdate, updateContextRevert]
        using nodeEquivB_refl n
    | succ d =>
      simpa [updateContextUpdate, updateContextRevert]
        using updateRevertNode_equiv n s hz
  | cons k ks ih =>
    intro n d hz
    cases d with
    | zero => simpa [updateContextUpdate, updateContextRevert]
        using nodeEquivB_refl n
    | succ d =>
      rw [updateContextUpdate_cons]
      have hUk : (((n.setChild k
          (some (updateContextUpdate s (ensureChild n k) ks d).1)).updateNode
            s)).child k =
          some (updateContextUpdate s (ensureChild n k) ks d).1 := by
        rw [child_updateNode, child_setChild_same]
      rw [updateContextRevert]
      simp only [hUk]
      have hrec : nodeEquivB
          (updateContextRevert s
            (updateContextUpdate s (ensureChild n k) ks d).1 ks d).1
          (ensureChild n k) = true :=
        ih (ensureChild n k) d (ensureChild_zeroClean n k hz)
      exact updateRevertNode_step n s k _ _ hz
        (childEquiv_of_ensure _ n k hrec)

theorem allZeroB_ext_child (n : CTWContextTreeNode) :
    allZeroB n = true ↔
      n.c0 = 0 ∧ n.c1 = 0 ∧
      ∀ (σ : Bool) (c : CTWContextTreeNode), n.child σ = some c →
        allZeroB c = true := by
  rw [allZeroB_ext]
  constructor
  · intro h
    refine ⟨h.1, h.2.1, ?_⟩
    intro σ c hc
    cases σ
    · exact h.2.2.1 c hc
    · exact h.2.2.2 c hc
  · intro h
    exact ⟨h.1, h.2.1, fun c hc => h.2.2 false c hc, fun c hc => h.2.2 true c hc⟩

theorem zeroCleanB_ext_child (n : CTWContextTreeNode) :
    zeroCleanB n = true ↔
      (n.c0 + n.c1 = 0 → allZeroB n = true) ∧
      ∀ (σ : Bool) (c : CTWContextTreeNode), n.child σ = some c →
        zeroCleanB c = true := by
  rw [zeroCleanB_ext]
  constructor
  · intro h
    refine ⟨h.1, ?_⟩
    intro σ c hc
    cases σ
    · exact h.2.1 c hc
    · exact h.2.2 c hc
  · intro h
    exact ⟨h.1, fun c hc => h.2 false c hc, fun c hc => h.2 true c hc⟩

theorem updateNode_visits_ne (n : CTWContextTreeNode) (s : Bool) :
    (n.updateNode s).c0 + (n.updateNode s).c1 ≠ 0 := by
  obtain ⟨u0, u1, _⟩ := updateNode_fields n s
  rw [u0, u1]
  cases s <;> simp

theorem setChild_updateNode_zeroClean (n : CTWContextTreeNode) (s k : Bool)
    (c : CTWContextTreeNode) (hz : zeroCleanB n = true)
    (hc : zeroCleanB c = true) :
    zeroCleanB ((n.setChild k (some c)).updateNode s) = true := by
  rw [zeroCleanB_ext_child]
  constructor
  · intro h0
    exact absurd h0 (updateNode_visits_ne (n.setChild k (some c)) s)
  · intro σ c0 hc0
    rw [child_updateNode] at hc0
    by_cases hσ : σ = k
    · subst hσ
      rw [child_setChild_same] at hc0
      cases hc0
      exact hc
    · rw [child_setChild_other _ k σ _ hσ] at hc0
      exact zeroClean_child n σ c0 hc0 hz

theorem updateNode_zeroClean (n : CTWContextTreeNode) (s : Bool)
    (hz : zeroCleanB n = true) : zeroCleanB (n.updateNode s) = true := by
  rw [zeroCleanB_ext_child]
  constructor
  · intro h0
    exact absurd h0 (updateNode_visits_ne n s)
  · intro σ c0 hc0
    rw [child_updateNode] at hc0
    exact zeroClean_child n σ c0 hc0 hz

/-- The fused update walk preserves zero-cleanliness. -/
theorem updateContextUpdate_zeroClean (s : Bool) :
    ∀ (ks : List Bool) (n : CTWContextTreeNode) (d : Nat),
      zeroCleanB n = true →
      zeroCleanB (updateContextUpdate s n ks d).1 = true := by
  intro ks
  induction ks with
  | nil =>
    intro n d hz
    cases d with
    | zero => simpa [updateContextUpdate] using hz
    | succ d => simpa [updateContextUpdate] using updateNode_zeroClean n s hz
  | cons k ks ih =>
    intro n d hz
    cases d with
    | zero => simpa [updateContextUpdate] using hz
    | succ d =>
      rw [updateContextUpdate_cons]
      exact setChild_updateNode_zeroClean n s k _ hz
        (ih (ensureChild n k) d (ensureChild_zeroClean n k hz))

theorem allZero_setChild_fresh (r : CTWContextTreeNode) (k : Bool)
    (hz : allZeroB r = true) :
    allZeroB (r.setChild k (some freshNode)) = true := by
  rw [allZeroB_ext_child] at hz ⊢
  obtain ⟨s0, s1, _⟩ := setChild_scalars r k (some freshNode)
  refine ⟨by rw [s0]; exact hz.1, by rw [s1]; exact hz.2.1, ?_⟩
  intro σ c hc
  by_cases hσ : σ = k
  · subst hσ
    rw [child_setChild_same] at hc
    cases hc
    exact allZeroB_fresh
  · rw [child_setChild_other _ k σ _ hσ] at hc
    exact hz.2.2 σ c hc

theorem zeroClean_setChild_fresh (r : CTWContextTreeNode) (k : Bool)
    (hz : zeroCleanB r = true) :
    zeroCleanB (r.setChild k (some freshNode)) = true := by
  rw [zeroCleanB_ext_child] at hz ⊢
  obtain ⟨s0, s1, _⟩ := setChild_scalars r k (some freshNode)
  constructor
  · intro h0
    rw [s0, s1] at h0
    exact allZero_setChild_fresh r k (hz.1 h0)
  · intro σ c hc
    by_cases hσ : σ = k
    · subst hσ
      rw [child_setChild_same] at hc
      cases hc
      exact zeroCleanB_fresh
    · rw [child_setChild_other _ k σ _ hσ] at hc
      exact hz.2 σ c hc

/-- Adding a fresh child into an empty slot is invisible to the
statistics. -/
theorem setChild_fresh_equiv (r : CTWContextTreeNode) (k : Bool)
    (hnone : r.child k = none) :
    nodeEquivB (r.setChild k (some freshNode)) r = true := by
  obtain ⟨s0, s1, sk⟩ := setChild_scalars r k (some freshNode)
  rw [nodeEquivB_ext_child]
  refine ⟨s0, s1, by right; rw [sk], ?_⟩
  intro σ
  by_cases hσ : σ = k
  · subst hσ
    rw [child_setChild_same, hnone]
    simpa [childEquivB] using allZeroB_fresh
  · rw [child_setChild_other _ k σ _ hσ]
    exact childEquivB_refl (r.child σ)

/-- The conditional fresh-child insertion used by the depth-0 branch of
`update_context`, compared across statistics-equivalence. -/
theorem ensureSet_equiv (r r' : CTWContextTreeNode) (k : Bool)
    (h : nodeEquivB r r' = true) :
    nodeEquivB
      (match r.child k with
       | some _ => r
       | none => r.setChild k (some freshNode))
      (match r'.child k with
       | some _ => r'
       | none => r'.setChild k (some freshNode)) = true := by
  have h0 := ((nodeEquivB_ext_child r r').mp h).2.2.2 k
  rcases hx : r.child k with _ | cx <;> rcases hy : r'.child k with _ | cy <;>
    rw [hx, hy] at h0 <;> simp only [childEquivB] at h0 <;> simp only []
  · exact setChild_equiv r r' k (some freshNode) (some freshNode) h
      (childEquivB_refl (some freshNode))
  · -- r has no child at k, r' has an all-zero child there
    exact nodeEquivB_trans _ r r' (setChild_fresh_equiv r k hx) h
  · -- r has an all-zero child at k, r' has none
    exact nodeEquivB_symm _ _
      (nodeEquivB_trans _ r' r (setChild_fresh_equiv r' k hy)
        (nodeEquivB_symm r r' h))
  · exact h

/-- Statistics-equivalence of whole trees: equal depth, identical
history, and statistics-equivalent roots. -/
def treeEquivB (t t' : CTWContextTree) : Bool :=
  decide (t.depth = t'.depth) && decide (t.history = t'.history) &&
    nodeEquivB t.root t'.root

theorem treeEquivB_ext (t t' : CTWContextTree) :
    treeEquivB t t' = true ↔
      t.depth = t'.depth ∧ t.history = t'.history ∧
      nodeEquivB t.root t'.root = true := by
  simp [treeEquivB, and_assoc]

theorem treeEquivB_refl (t : CTWContextTree) : treeEquivB t t = true := by
  rw [treeEquivB_ext]
  exact ⟨rfl, rfl, nodeEquivB_refl t.root⟩

theorem treeEquivB_trans (t u v : CTWContextTree)
    (h1 : treeEquivB t u = true) (h2 : treeEquivB u v = true) :
    treeEquivB t v = true := by
  rw [treeEquivB_ext] at h1 h2 ⊢
  exact ⟨h1.1.trans h2.1, h1.2.1.trans h2.2.1,
    nodeEquivB_trans t.root u.root v.root h1.2.2 h2.2.2⟩

/-- `update1` written out by cases. -/
theorem update1_eq (t : CTWContextTree) (s : Bool) :
    t.update1 s =
      if t.depth ≤ t.history.length then
        if t.depth = 0 then
          match t.history.reverse with
          | [] => { t with history := t.history ++ [s] }
          | k :: _ =>
            match t.root.child k with
            | some _ => { t with history := t.history ++ [s] }
            | none =>
              { t with
                root := t.root.setChild k (some freshNode),
                tree_size := t.tree_size + 1,
                history := t.history ++ [s] }
        else
          { t with
            root := (updateContextUpdate s t.root t.history.reverse t.depth).1,
            tree_size := t.tree_size +
              (updateContextUpdate s t.root t.history.reverse t.depth).2,
            history := t.history ++ [s] }
      else { t with history := t.history ++ [s] } := rfl

/-- `revert1` written out by cases, for a tree whose history ends in `s`. -/
theorem revert1_eq_snoc (t : CTWContextTree) (s : Bool) (h : List Bool)
    (hh : t.history = h ++ [s]) :
    t.revert1 =
      if t.depth ≤ h.length then
        if t.depth = 0 then
          match h.reverse with
          | [] => { t with history := h }
          | k :: _ =>
            match t.root.child k with
            | some _ => { t with history := h }
            | none =>
              { t with
                root := t.root.setChild k (some freshNode),
                tree_size := t.tree_size + 1,
                history := h }
        else
          { t with
            root := (updateContextRevert s t.root h.reverse t.depth).1,
            tree_size := t.tree_size +
              (updateContextRevert s t.root h.reverse t.depth).2.1 -
              (updateContextRevert s t.root h.reverse t.depth).2.2,
            history := h }
      else { t with history := h } := by
  unfold CTWContextTree.revert1
  rw [hh]
  simp only [List.reverse_append, List.reverse_cons, List.reverse_nil,
    List.nil_append, List.singleton_append, List.cons_append,
    List.reverse_reverse]

theorem revert1_update1_equiv_helper (t : CTWContextTree) (s : Bool)
    (hz : zeroCleanB t.root = true) :
    treeEquivB ((t.update1 s).revert1) t = true := by
  obtain ⟨D, H, R, Z⟩ := t
  rw [update1_eq]
  dsimp only
  by_cases hlen : D ≤ H.length
  · rw [if_pos hlen]
    by_cases hd : D = 0
    · rw [if_pos hd]
      rcases hrev : H.reverse with _ | ⟨k, rest⟩
      · simp only []
        rw [revert1_eq_snoc _ s H rfl]
        dsimp only
        rw [if_pos hlen, if_pos hd, hrev]
        exact treeEquivB_refl _
      · rcases hch : R.child k with _ | c
        · simp only []
          rw [hch]
          simp only []
          rw [revert1_eq_snoc _ s H rfl]
          dsimp only
          rw [if_pos hlen, if_pos hd, hrev]
          simp only []
          rw [child_setChild_same]
          simp only []
          rw [treeEquivB_ext]
          exact ⟨rfl, rfl, setChild_fresh_equiv R k hch⟩
        · simp only []
          rw [hch]
          simp only []
          rw [revert1_eq_snoc _ s H rfl]
          dsimp only
          rw [if_pos hlen, if_pos hd, hrev]
          simp only []
          rw [hch]
          simp only []
          exact treeEquivB_refl _
    · rw [if_neg hd]
      rw [revert1_eq_snoc _ s H rfl]
      dsimp only
      rw [if_pos hlen, if_neg hd]
      rw [treeEquivB_ext]
      exact ⟨rfl, rfl, updateContextSandwich s H.reverse R D hz⟩
  · rw [if_neg hlen]
    rw [revert1_eq_snoc _ s H rfl]
    dsimp only
    rw [if_neg hlen]
    exact treeEquivB_refl _

theorem revert1_equiv_helper (t t' : CTWContextTree)
    (h : treeEquivB t t' = true) :
    treeEquivB t.revert1 t'.revert1 = true := by
  obtain ⟨D, H, R, Z⟩ := t
  obtain ⟨D', H', R', Z'⟩ := t'
  rw [treeEquivB_ext] at h
  obtain ⟨hD, hH, hR⟩ := h
  dsimp only at hD hH hR
  subst hD
  subst hH
  unfold CTWContextTree.revert1
  dsimp only
  rcases hrev : H.reverse with _ | ⟨s, revRest⟩
  · rw [treeEquivB_ext]
    exact ⟨rfl, rfl, hR⟩
  · simp only []
    by_cases hlen : D ≤ revRest.reverse.length
    · rw [if_pos hlen, if_pos hlen]
      by_cases hd : D = 0
      · rw [if_pos hd, if_pos hd]
        rcases revRest with _ | ⟨k, rest2⟩
        · simp only []
          rw [treeEquivB_ext]
          exact ⟨rfl, rfl, hR⟩
        · simp only []
          rcases hc : R.child k with _ | c <;> rcases hc' : R'.child k with _ | c'
          · simp only []
            rw [treeEquivB_ext]
            exact ⟨rfl, rfl, setChild_equiv R R' k _ _ hR (childEquivB_refl _)⟩
          · simp only []
            rw [treeEquivB_ext]
            exact ⟨rfl, rfl,
              nodeEquivB_trans _ R R' (setChild_fresh_equiv R k hc) hR⟩
          · simp only []
            rw [treeEquivB_ext]
            exact ⟨rfl, rfl, nodeEquivB_trans R R' _ hR
              (nodeEquivB_symm _ _ (setChild_fresh_equiv R' k hc'))⟩
          · simp only []
            rw [treeEquivB_ext]
            exact ⟨rfl, rfl, hR⟩
      · rw [if_neg hd, if_neg hd]
        rw [treeEquivB_ext]
        exact ⟨rfl, rfl, updateContextRevert_equiv s revRest R R' D hR⟩
    · rw [if_neg hlen, if_neg hlen]
      rw [treeEquivB_ext]
      exact ⟨rfl, rfl, hR⟩

theorem update1_zeroClean (t : CTWContextTree) (s : Bool)
    (hz : zeroCleanB t.root = true) :
    zeroCleanB ((t.update1 s).root) = true := by
  obtain ⟨D, H, R, Z⟩ := t
  rw [update1_eq]
  dsimp only at hz ⊢
  by_cases hlen : D ≤ H.length
  · rw [if_pos hlen]
    by_cases hd : D = 0
    · rw [if_pos hd]
      rcases hrev : H.reverse with _ | ⟨k, rest⟩
      · simp only []
        exact hz
      · simp only []
        rcases hc : R.child k with _ | c
        · simp only []
          exact zeroClean_setChild_fresh R k hz
        · simp only []
          exact hz
    · rw [if_neg hd]
      dsimp only
      exact updateContextUpdate_zeroClean s H.reverse R D hz
  · rw [if_neg hlen]
    exact hz

theorem update_revert_equiv_helper (t : CTWContextTree) (bs : List Bool)
    (hz : zeroCleanB t.root = true) :
    treeEquivB ((t.update bs).revert bs.length) t = true := by
  induction bs generalizing t with
  | nil =>
    simpa [CTWContextTree.update, CTWContextTree.revert] using treeEquivB_refl t
  | cons b rest ih =>
    have hupd : t.update (b :: rest) = (t.update1 b).update rest := rfl
    rw [hupd]
    have hz1 : zeroCleanB ((t.update1 b).root) = true := update1_zeroClean t b hz
    have hIH := ih (t.update1 b) hz1
    show treeEquivB (CTWContextTree.revert1^[rest.length + 1] _) t = true
    rw [Function.iterate_succ_apply']
    exact treeEquivB_trans _ _ _
      (revert1_equiv_helper _ _ hIH) (revert1_update1_equiv_helper t b hz)

/-- C1.  The claim says `update(bs)` followed by `revert(len(bs))` restores
the tree bitwise: every node's counts, `log_kt`, `log_w`, children map,
history and tree size.  That is false: `revert` deletes a context child
only when its visit count has returned to zero, keyed by the reverted
symbol, so zero-count nodes created by `update` can linger (with their
recomputed `log_probability`) or be torn down, and `tree_size` is not
restored.  What does hold, proved here, is the corrected statement: on any
state whose zero-visit nodes carry no statistics below them (true of every
state reachable from a fresh tree), the round trip restores the depth, the
history, every node's symbol counts, and `log_kt` at every visited node
(statistics-equivalence `treeEquivB`); mismatching children are all-zero
subtrees.  The bitwise version is refuted by
`ctw_update_revert_not_bitwise`. -/
theorem ctw_update_revert_roundtrip (t : CTWContextTree) (bs : List Bool)
    (hz : zeroCleanB t.root = true) :
    treeEquivB ((t.update bs).revert bs.length) t = true :=
  update_revert_equiv_helper t bs hz

theorem ctw_update_revert_roundtrip_witness :
    zeroCleanB (CTWContextTree.create 1).root = true ∧
      treeEquivB (((CTWContextTree.create 1).update [true, false]).revert 2)
        (CTWContextTree.create 1) = true :=
  ⟨by decide,
    ctw_update_revert_roundtrip (CTWContextTree.create 1) [true, false]
      (by decide)⟩

/-- C1, counterexample to the bitwise claim: starting from the reachable
state `B = revert 1 (update [0,0,0] (fresh depth-1 tree))` (a leaf root
with counts (1,0) and tree size 1), one more `update([1])` followed by
`revert(1)` leaves `tree_size = 2` and root `log_probability = log(3/4)`,
not the saved `1` and `log(1/2)`. -/
theorem ctw_update_revert_not_bitwise :
    ((((((CTWContextTree.create 1).update [false, false, false]).revert 1
        ).update [true]).revert 1).tree_size ≠
      (((CTWContextTree.create 1).update [false, false, false]).revert 1
        ).tree_size) ∧
    ((((((CTWContextTree.create 1).update [false, false, false]).revert 1
        ).update [true]).revert 1).root.prob ≠
      (((CTWContextTree.create 1).update [false, false, false]).revert 1
        ).root.prob) := by
  constructor
  · norm_num [CTWContextTree.update, CTWContextTree.revert,
      CTWContextTree.update1, CTWContextTree.revert1, CTWContextTree.create,
      updateContextUpdate, updateContextRevert, CTWContextTreeNode.updateNode,
      CTWContextTreeNode.revertNode, CTWContextTreeNode.updateLogProbability,
      CTWContextTreeNode.isLeafNode, CTWContextTreeNode.childProbProduct,
      CTWContextTreeNode.ktMultiplier, CTWContextTreeNode.symbolCount,
      CTWContextTreeNode.visits, CTWContextTreeNode.child,
      CTWContextTreeNode.setChild, CTWContextTreeNode.c0,
      CTWContextTreeNode.c1, CTWContextTreeNode.kt, CTWContextTreeNode.prob,
      CTWContextTreeNode.child0, CTWContextTreeNode.child1, freshNode]
  · norm_num [CTWContextTree.update, CTWContextTree.revert,
      CTWContextTree.update1, CTWContextTree.revert1, CTWContextTree.create,
      updateContextUpdate, updateContextRevert, CTWContextTreeNode.updateNode,
      CTWContextTreeNode.revertNode, CTWContextTreeNode.updateLogProbability,
      CTWContextTreeNode.isLeafNode, CTWContextTreeNode.childProbProduct,
      CTWContextTreeNode.ktMultiplier, CTWContextTreeNode.symbolCount,
      CTWContextTreeNode.visits, CTWContextTreeNode.child,
      CTWContextTreeNode.setChild, CTWContextTreeNode.c0,
      CTWContextTreeNode.c1, CTWContextTreeNode.kt, CTWContextTreeNode.prob,
      CTWContextTreeNode.child0, CTWContextTreeNode.child1, freshNode]

/-! ## The MC-AIXI-CTW agent layer (C2) -/

/-- The `percept_update` flag of `pyaixi.util` (an update-type enum value),
modelled as the Boolean `true`. -/
def percept_update : Bool := true

/-- The `action_update` flag of `pyaixi.util`, modelled as `false`. -/
def action_update : Bool := false

/-- The fields of `MC_AIXI_CTW_Agent` that a save/restore cycle touches:
the CTW model, `age`, `total_reward` (a rational, standing for the float)
and `last_update`.  The environment and search options play no role in
`model_revert`. -/
structure MC_AIXI_CTW_Agent where
  context_tree : CTWContextTree
  age : Nat
  total_reward : ℚ
  last_update : Bool

/-- `MC_AIXI_CTW_Agent.history_size()`: the length of the context-tree
history. -/
def MC_AIXI_CTW_Agent.history_size (a : MC_AIXI_CTW_Agent) : Nat :=
  a.context_tree.history.length

/-- `MC_AIXI_CTW_Undo`: the save-point record. -/
structure MC_AIXI_CTW_Undo where
  age : Nat
  total_reward : ℚ
  history_size : Nat
  last_update : Bool

/-- `MC_AIXI_CTW_Undo.__init__(agent)`: capture `age`, `total_reward`,
`history_size()` and `last_update`. -/
def mkUndo (a : MC_AIXI_CTW_Agent) : MC_AIXI_CTW_Undo :=
  ⟨a.age, a.total_reward, a.history_size, a.last_update⟩

/-- `MC_AIXI_CTW_Agent.model_update_action(action)`: encode the action
with `util.encode(action, action_bits())` (the `encode` of `src/util.py`
embedded above, whose failed assert is `none`), append the resulting bits
to the history without touching any node (`update_history`), increment
`age` and set `last_update`.  Because `encode` never pads, the appended
block can be *shorter* than `aBits` (e.g. `encode(0, 2) = [0]`).  The
source's `is_valid_action` assert constrains the action to the
environment's action set, a subset of the values `encode` accepts; the
`last_update == percept_update` assert is the legality condition in
`AgentTrajectory`. -/
def MC_AIXI_CTW_Agent.model_update_action (a : MC_AIXI_CTW_Agent)
    (action aBits : Nat) : Option MC_AIXI_CTW_Agent :=
  (encode action aBits).map (fun bits =>
    { a with
      context_tree := a.context_tree.updateHistory bits
      age := a.age + 1
      last_update := action_update })

/-- `MC_AIXI_CTW_Agent.generate_percept_and_update()`: sample
`percept_bits()` symbols from the context tree, updating it with each
(`generate_random_symbols_and_update`), add the decoded reward to
`total_reward`, and set `last_update`.  `draws` are the random draws (one
per sampled bit); `reward` stands for the value `decode_percept` (via
`util.decode`) extracts from the sampled reward bits — it feeds only
`total_reward`, which `model_revert` overwrites, so it is carried as a
parameter. -/
def MC_AIXI_CTW_Agent.generate_percept_and_update (a : MC_AIXI_CTW_Agent)
    (draws : List ℚ) (reward : ℚ) : MC_AIXI_CTW_Agent :=
  { a with
    context_tree := (a.context_tree.generateRandomSymbolsAndUpdate draws).2
    total_reward := a.total_reward + reward
    last_update := percept_update }

/-- One operation of a simulated trajectory inside `search`: an action
update (identified by the action value it encodes) or a sampled percept
update (identified by its random draws and decoded reward).  `playout`
and `MonteCarloSearchNode.sample` perform exactly these two operations on
the agent. -/
inductive AgentOp where
  | act : Nat → AgentOp
  | per : List ℚ → ℚ → AgentOp

/-- A legal simulated trajectory from the save point `a0`, indexed by the
list of operations performed: actions (after a percept, and only if their
encoding succeeds) and sampled percepts (after an action, one draw per
sampled bit).  No width is assumed of the encoded action blocks. -/
inductive AgentTrajectory (aBits pBits : Nat) (a0 : MC_AIXI_CTW_Agent) :
    List AgentOp → MC_AIXI_CTW_Agent → Prop
  | refl : AgentTrajectory aBits pBits a0 [] a0
  | act : ∀ (ops : List AgentOp) (p q : MC_AIXI_CTW_Agent) (action : Nat),
      AgentTrajectory aBits pBits a0 ops p →
      p.model_update_action action aBits = some q →
      p.last_update = percept_update →
      AgentTrajectory aBits pBits a0 (ops ++ [AgentOp.act action]) q
  | per : ∀ (ops : List AgentOp) (p : MC_AIXI_CTW_Agent)
      (draws : List ℚ) (reward : ℚ),
      AgentTrajectory aBits pBits a0 ops p →
      draws.length = pBits →
      p.last_update = action_update →
      AgentTrajectory aBits pBits a0 (ops ++ [AgentOp.per draws reward])
        (p.generate_percept_and_update draws reward)

/-- Every action performed on the trajectory encodes to a block of
exactly `aBits` bits.  `model_revert` undoes an action with
`revert_history(action_bits())`, a fixed `aBits`-bit pop, so this is
precisely the condition under which it pops what `model_update_action`
appended; `src/util.py`'s `encode` does not guarantee it (it never pads —
the C3 bug), and without it restoration fails, see
`agent_model_revert_not_bitwise`. -/
def fullWidthActsB (aBits : Nat) (ops : List AgentOp) : Bool :=
  ops.all (fun op =>
    match op with
    | AgentOp.act action => decide ((pyBin action).length = aBits)
    | AgentOp.per _ _ => true)

/-- The `while self.history_size() > undo_instance.history_size` loop of
`model_revert`, with explicit fuel: a percept is undone by
`context_tree.revert(percept_bits())`, an action by
`context_tree.revert_history(action_bits())`.  `none` models a failed
`revert_history` assert as well as fuel exhaustion (the Python loop not
terminating). -/
def modelRevertLoop (aBits pBits : Nat) (u : MC_AIXI_CTW_Undo) :
    Nat → MC_AIXI_CTW_Agent → Option MC_AIXI_CTW_Agent
  | 0, _ => none
  | fuel + 1, a =>
    if u.history_size < a.history_size then
      if a.last_update = percept_update then
        modelRevertLoop aBits pBits u fuel
          { a with
            context_tree := a.context_tree.revert pBits
            last_update := action_update }
      else
        match a.context_tree.revertHistory (aBits : ℤ) with
        | none => none
        | some t2 =>
          modelRevertLoop aBits pBits u fuel
            { a with context_tree := t2, last_update := percept_update }
    else some a

/-- `MC_AIXI_CTW_Agent.model_revert(undo_instance)`: run the loop, then
restore `age`, `total_reward` and `last_update` from the save point. -/
def MC_AIXI_CTW_Agent.model_revert (a : MC_AIXI_CTW_Agent)
    (aBits pBits fuel : Nat) (u : MC_AIXI_CTW_Undo) :
    Option MC_AIXI_CTW_Agent :=
  match modelRevertLoop aBits pBits u fuel a with
  | none => none
  | some b => some
      { b with
        age := u.age
        total_reward := u.total_reward
        last_update := u.last_update }

/-- One unfolding of the loop. -/
theorem modelRevertLoop_succ (aBits pBits : Nat) (u : MC_AIXI_CTW_Undo)
    (fuel : Nat) (a : MC_AIXI_CTW_Agent) :
    modelRevertLoop aBits pBits u (fuel + 1) a =
      if u.history_size < a.history_size then
        if a.last_update = percept_update then
          modelRevertLoop aBits pBits u fuel
            { a with
              context_tree := a.context_tree.revert pBits
              last_update := action_update }
        else
          match a.context_tree.revertHistory (aBits : ℤ) with
          | none => none
          | some t2 =>
            modelRevertLoop aBits pBits u fuel
              { a with context_tree := t2, last_update := percept_update }
      else some a := rfl

/-- `predict` leaves the tree statistics-equivalent to what it was. -/
theorem predictTree_equiv (t : CTWContextTree) (bs : List Bool)
    (hz : zeroCleanB t.root = true) :
    treeEquivB (t.predictTree bs) t = true := by
  unfold CTWContextTree.predictTree
  split
  · exact treeEquivB_refl t
  · exact update_revert_equiv_helper t bs hz

theorem revert_equiv_helper (k : Nat) (t t' : CTWContextTree)
    (h : treeEquivB t t' = true) :
    treeEquivB (t.revert k) (t'.revert k) = true := by
  induction k with
  | zero => exact h
  | succ n ih =>
    show treeEquivB (CTWContextTree.revert1^[n + 1] t)
      (CTWContextTree.revert1^[n + 1] t') = true
    rw [Function.iterate_succ_apply', Function.iterate_succ_apply']
    exact revert1_equiv_helper _ _ ih

theorem treeEquiv_zeroClean (t t' : CTWContextTree)
    (h : treeEquivB t t' = true) (hz : zeroCleanB t'.root = true) :
    zeroCleanB t.root = true :=
  zeroCleanB_of_equiv t.root t'.root ((treeEquivB_ext t t').mp h).2.2 hz

theorem grsu_cons (t : CTWContextTree) (u : ℚ) (us : List ℚ) :
    t.generateRandomSymbolsAndUpdate (u :: us) =
      ((decide (u < t.predictVal [true])) ::
         (((t.predictTree [true]).update
            [decide (u < t.predictVal [true])]).generateRandomSymbolsAndUpdate
              us).1,
       (((t.predictTree [true]).update
          [decide (u < t.predictVal [true])]).generateRandomSymbolsAndUpdate
            us).2) := rfl

/-- `generate_random_symbols_and_update(n)` emits one symbol per draw,
preserves zero-cleanness, appends exactly the emitted symbols to the
history, and is undone (up to statistics-equivalence) by `revert(n)`. -/
theorem grsu_spec : ∀ (us : List ℚ) (t : CTWContextTree),
    zeroCleanB t.root = true →
    (t.generateRandomSymbolsAndUpdate us).1.length = us.length ∧
    zeroCleanB (t.generateRandomSymbolsAndUpdate us).2.root = true ∧
    (t.generateRandomSymbolsAndUpdate us).2.history =
      t.history ++ (t.generateRandomSymbolsAndUpdate us).1 ∧
    treeEquivB ((t.generateRandomSymbolsAndUpdate us).2.revert us.length) t
      = true := by
  intro us
  induction us with
  | nil =>
    intro t hz
    exact ⟨rfl, hz, (List.append_nil _).symm, treeEquivB_refl t⟩
  | cons u us ih =>
    intro t hz
    rw [grsu_cons]
    dsimp only
    have he1 : treeEquivB (t.predictTree [true]) t = true :=
      predictTree_equiv t [true] hz
    have hz1 : zeroCleanB (t.predictTree [true]).root = true :=
      treeEquiv_zeroClean _ _ he1 hz
    have hz2 : zeroCleanB
        ((t.predictTree [true]).update
          [decide (u < t.predictVal [true])]).root = true :=
      update1_zeroClean _ _ hz1
    obtain ⟨L, Z, H, E⟩ := ih _ hz2
    refine ⟨by simp [L], Z, ?_, ?_⟩
    · rw [H]
      have ht1 : ((t.predictTree [true]).update
          [decide (u < t.predictVal [true])]).history =
          (t.predictTree [true]).history ++
            [decide (u < t.predictVal [true])] :=
        CTWContextTree.history_update1 _ _
      rw [ht1, ((treeEquivB_ext _ _).mp he1).2.1]
      simp
    · show treeEquivB (CTWContextTree.revert1^[us.length + 1] _) t = true
      rw [Function.iterate_succ_apply']
      refine treeEquivB_trans _ _ _ (revert1_equiv_helper _ _ E) ?_
      refine treeEquivB_trans _ _ _ ?_ he1
      exact revert1_update1_equiv_helper _ _ hz1

/-- `revert_history(w)` removes exactly a trailing `w`-bit block. -/
theorem revertHistory_snoc_block (t : CTWContextTree) (h0 bits : List Bool)
    (w : Nat) (hw : 1 ≤ w) (hb : bits.length = w)
    (hh : t.history = h0 ++ bits) :
    t.revertHistory (w : ℤ) = some { t with history := h0 } := by
  have hlen : t.history.length = h0.length + w := by
    rw [hh, List.length_append, hb]
  have hcnd : 0 < (w : ℤ) ∧ (w : ℤ) ≤ (t.history.length : ℤ) := by
    constructor
    · exact_mod_cast hw
    · rw [hlen]
      push_cast
      omega
  unfold CTWContextTree.revertHistory
  rw [if_pos hcnd]
  have hw2 : t.history.length - ((w : ℤ)).toNat = h0.length := by
    rw [hlen]
    simp
  rw [hw2, hh, List.take_left]

/-- Splitting a successful `model_update_action` into the passed assert
and the updated agent. -/
theorem model_update_action_some (a q : MC_AIXI_CTW_Agent)
    (action aBits : Nat)
    (h : a.model_update_action action aBits = some q) :
    (pyBin action).length ≤ aBits ∧
    q = { a with
          context_tree := a.context_tree.updateHistory (pyBin action)
          age := a.age + 1
          last_update := action_update } := by
  unfold MC_AIXI_CTW_Agent.model_update_action encode at h
  dsimp only at h
  by_cases hle : (pyBin action).length ≤ aBits
  · rw [if_pos hle] at h
    exact ⟨hle, (Option.some.inj h).symm⟩
  · rw [if_neg hle] at h
    exact absurd h (by simp)

theorem fullWidthActsB_append (aBits : Nat) (l1 l2 : List AgentOp) :
    fullWidthActsB aBits (l1 ++ l2) =
      (fullWidthActsB aBits l1 && fullWidthActsB aBits l2) := by
  simp [fullWidthActsB]

/-- Along any legal trajectory the tree stays zero-clean and the history
never shrinks below its saved length. -/
theorem trajectory_invariant (aBits pBits : Nat) (a0 : MC_AIXI_CTW_Agent)
    (hz : zeroCleanB a0.context_tree.root = true) :
    ∀ (ops : List AgentOp) (b : MC_AIXI_CTW_Agent),
      AgentTrajectory aBits pBits a0 ops b →
      zeroCleanB b.context_tree.root = true ∧
      a0.context_tree.history.length ≤ b.context_tree.history.length := by
  intro ops b htraj
  induction htraj with
  | refl => exact ⟨hz, le_refl _⟩
  | act ops1 p q action htraj heq hl ih =>
    obtain ⟨hle, hq⟩ := model_update_action_some p q action aBits heq
    subst hq
    refine ⟨ih.1, ?_⟩
    show _ ≤ (p.context_tree.history ++ pyBin action).length
    rw [List.length_append]
    exact le_trans ih.2 (Nat.le_add_right _ _)
  | per ops1 p draws reward htraj hd hl ih =>
    obtain ⟨L, Z, H, E⟩ := grsu_spec draws p.context_tree ih.1
    refine ⟨Z, ?_⟩
    show _ ≤
      ((p.context_tree.generateRandomSymbolsAndUpdate draws).2).history.length
    rw [H, List.length_append]
    exact le_trans ih.2 (Nat.le_add_right _ _)

/-- The loop, started on any agent whose tree is statistics-equivalent to
the endpoint of a full-width trajectory (with the matching
`last_update`), terminates and returns an agent whose tree is
statistics-equivalent to the save point's. -/
theorem modelRevertLoop_restores (aBits pBits : Nat) (ha : 1 ≤ aBits)
    (hp : 1 ≤ pBits) (a0 : MC_AIXI_CTW_Agent)
    (hz : zeroCleanB a0.context_tree.root = true) :
    ∀ (ops : List AgentOp) (b : MC_AIXI_CTW_Agent),
      AgentTrajectory aBits pBits a0 ops b →
      fullWidthActsB aBits ops = true →
      ∀ x : MC_AIXI_CTW_Agent,
        treeEquivB x.context_tree b.context_tree = true →
        x.last_update = b.last_update →
        ∃ fuel y, modelRevertLoop aBits pBits (mkUndo a0) fuel x = some y ∧
          treeEquivB y.context_tree a0.context_tree = true := by
  intro ops b htraj
  induction htraj with
  | refl =>
    intro hfw x hx hlu
    have hh : x.context_tree.history = a0.context_tree.history :=
      ((treeEquivB_ext _ _).mp hx).2.1
    have hcond : ¬ (mkUndo a0).history_size < x.history_size := by
      show ¬ a0.context_tree.history.length < x.context_tree.history.length
      rw [hh]
      exact lt_irrefl _
    refine ⟨1, x, ?_, hx⟩
    rw [modelRevertLoop_succ, if_neg hcond]
  | act ops1 p q action htraj heq hl ih =>
    intro hfw x hx hlu
    rw [fullWidthActsB_append, Bool.and_eq_true] at hfw
    have hwid : (pyBin action).length = aBits := by
      have h2 := hfw.2
      simp [fullWidthActsB] at h2
      exact h2
    obtain ⟨hle, hq⟩ := model_update_action_some p q action aBits heq
    subst hq
    obtain ⟨hdep, hh, hroot⟩ := (treeEquivB_ext _ _).mp hx
    have hinv := trajectory_invariant aBits pBits a0 hz ops1 p htraj
    have hxh : x.context_tree.history =
        p.context_tree.history ++ pyBin action := hh
    have hcond : (mkUndo a0).history_size < x.history_size := by
      show a0.context_tree.history.length < x.context_tree.history.length
      rw [hxh, List.length_append, hwid]
      have h1 := hinv.2
      omega
    have hlux : ¬ x.last_update = percept_update := by
      rw [hlu]
      show ¬ action_update = percept_update
      decide
    have hrevh : x.context_tree.revertHistory (aBits : ℤ) =
        some { x.context_tree with history := p.context_tree.history } :=
      revertHistory_snoc_block x.context_tree p.context_tree.history
        (pyBin action) aBits ha hwid hxh
    have hx' : treeEquivB
        ({ x with
            context_tree :=
              { x.context_tree with history := p.context_tree.history },
            last_update := percept_update } :
          MC_AIXI_CTW_Agent).context_tree p.context_tree = true := by
      rw [treeEquivB_ext]
      exact ⟨hdep, rfl, hroot⟩
    obtain ⟨fuel, y, hloop, hy⟩ := ih hfw.1 _ hx' hl.symm
    refine ⟨fuel + 1, y, ?_, hy⟩
    rw [modelRevertLoop_succ, if_pos hcond, if_neg hlux, hrevh]
    exact hloop
  | per ops1 p draws reward htraj hd hl ih =>
    intro hfw x hx hlu
    rw [fullWidthActsB_append, Bool.and_eq_true] at hfw
    obtain ⟨hdep, hh, hroot⟩ := (treeEquivB_ext _ _).mp hx
    have hinv := trajectory_invariant aBits pBits a0 hz ops1 p htraj
    obtain ⟨L, Z, H, E⟩ := grsu_spec draws p.context_tree hinv.1
    have hxh : x.context_tree.history =
        p.context_tree.history ++
          (p.context_tree.generateRandomSymbolsAndUpdate draws).1 := by
      rw [hh]
      exact H
    have hcond : (mkUndo a0).history_size < x.history_size := by
      show a0.context_tree.history.length < x.context_tree.history.length
      rw [hxh, List.length_append, L, hd]
      have h1 := hinv.2
      omega
    have hlux : x.last_update = percept_update := hlu
    have hx' : treeEquivB
        ({ x with
            context_tree := x.context_tree.revert pBits,
            last_update := action_update } :
          MC_AIXI_CTW_Agent).context_tree p.context_tree = true := by
      refine treeEquivB_trans _ _ _ (revert_equiv_helper pBits _ _ hx) ?_
      rw [← hd]
      exact E
    obtain ⟨fuel, y, hloop, hy⟩ := ih hfw.1 _ hx' hl.symm
    refine ⟨fuel + 1, y, ?_, hy⟩
    rw [modelRevertLoop_succ, if_pos hcond, if_pos hlux]
    exact hloop

/-- C2.  The claim says a save point (`MC_AIXI_CTW_Undo`) taken before
any legal simulated trajectory (alternating `model_update_action` and
`generate_percept_and_update`, which is all `playout` and `sample` do to
the agent) is restored bitwise by `model_revert`: CTW tree, history,
`age`, `total_reward` and `last_update`.  That fails in two ways, both in
`agent_model_revert_not_bitwise`: (i) as in C1, the tree keeps zero-count
nodes with a stale `tree_size` and recomputed `log_probability`; (ii)
`util.encode` never pads, so an action such as `0` with
`action_bits() = 2` appends fewer bits than `revert_history(action_bits)`
later pops, and the restored history loses pre-save symbols.  Proved here
is the corrected statement: for positive widths, on any agent whose
zero-visit nodes carry no statistics (every agent whose tree was built by
updates), and for any legal trajectory all of whose actions encode to
full `action_bits()`-wide blocks, `model_revert` terminates (some fuel
suffices) and restores `age`, `total_reward` and `last_update` exactly,
and the tree up to statistics-equivalence — which includes the depth, the
exact history, every node's symbol counts, and `log_kt` at every visited
node. -/
theorem agent_model_revert_restores (aBits pBits : Nat)
    (ha : 1 ≤ aBits) (hp : 1 ≤ pBits)
    (a0 b : MC_AIXI_CTW_Agent) (ops : List AgentOp)
    (hz : zeroCleanB a0.context_tree.root = true)
    (htraj : AgentTrajectory aBits pBits a0 ops b)
    (hfw : fullWidthActsB aBits ops = true) :
    ∃ fuel y,
      b.model_revert aBits pBits fuel (mkUndo a0) = some y ∧
      treeEquivB y.context_tree a0.context_tree = true ∧
      y.age = a0.age ∧ y.total_reward = a0.total_reward ∧
      y.last_update = a0.last_update := by
  obtain ⟨fuel, y0, hloop, hy⟩ :=
    modelRevertLoop_restores aBits pBits ha hp a0 hz ops b htraj hfw b
      (treeEquivB_refl _) rfl
  refine ⟨fuel,
    { y0 with
      age := (mkUndo a0).age
      total_reward := (mkUndo a0).total_reward
      last_update := (mkUndo a0).last_update }, ?_, hy, rfl, rfl, rfl⟩
  unfold MC_AIXI_CTW_Agent.model_revert
  rw [hloop]

/-- A depth-1 agent at a fresh save point. -/
def wAgent : MC_AIXI_CTW_Agent := ⟨CTWContextTree.create 1, 0, 0, percept_update⟩

/-- `wAgent` after `model_update_action(1)` with `action_bits = 1`
(`encode(1, 1) = [1]`). -/
def wAgent1 : MC_AIXI_CTW_Agent :=
  { wAgent with
    context_tree := wAgent.context_tree.updateHistory [true]
    age := wAgent.age + 1
    last_update := action_update }

theorem agent_model_revert_restores_witness :
    (1 ≤ 1 ∧ zeroCleanB wAgent.context_tree.root = true ∧
     AgentTrajectory 1 1 wAgent [AgentOp.act 1, AgentOp.per [1/2] 0]
       (wAgent1.generate_percept_and_update [1/2] 0) ∧
     fullWidthActsB 1 [AgentOp.act 1, AgentOp.per [1/2] 0] = true) ∧
    (∃ fuel y,
      (wAgent1.generate_percept_and_update [1/2] 0).model_revert 1 1 fuel
        (mkUndo wAgent) = some y ∧
      treeEquivB y.context_tree wAgent.context_tree = true ∧
      y.age = wAgent.age ∧ y.total_reward = wAgent.total_reward ∧
      y.last_update = wAgent.last_update) :=
  ⟨⟨le_refl 1, by decide,
    AgentTrajectory.per [AgentOp.act 1] wAgent1 [1/2] 0
      (AgentTrajectory.act [] wAgent wAgent1 1 AgentTrajectory.refl rfl rfl)
      rfl rfl,
    by decide⟩,
   agent_model_revert_restores 1 1 (le_refl 1) (le_refl 1) wAgent
     (wAgent1.generate_percept_and_update [1/2] 0)
     [AgentOp.act 1, AgentOp.per [1/2] 0] (by decide)
     (AgentTrajectory.per [AgentOp.act 1] wAgent1 [1/2] 0
       (AgentTrajectory.act [] wAgent wAgent1 1 AgentTrajectory.refl rfl rfl)
       rfl rfl)
     (by decide)⟩

/-- An agent whose depth-1 tree carries the reachable state produced by
`update([0,0,0])` then `revert(1)`: a leaf root with counts `(1, 0)`,
`log_kt = log_w = log(1/2)`, history `[0, 0]`, size 1. -/
def cAgent : MC_AIXI_CTW_Agent :=
  ⟨((CTWContextTree.create 1).update [false, false, false]).revert 1, 0, 0,
    percept_update⟩

/-- A depth-1 agent saved at history `[0]` (one learned-free bit), used
with `action_bits = percept_bits = 2`. -/
def c2Agent : MC_AIXI_CTW_Agent :=
  ⟨(CTWContextTree.create 1).update [false], 0, 0, percept_update⟩

/-- `cAgent` after `model_update_action(1)` with `action_bits = 1`. -/
def cAgent1 : MC_AIXI_CTW_Agent :=
  { cAgent with
    context_tree := cAgent.context_tree.updateHistory [true]
    age := cAgent.age + 1
    last_update := action_update }

/-- `c2Agent` after `model_update_action(0)` with `action_bits = 2`: the
unpadded encoding appends the single bit `[0]`. -/
def c2Agent1 : MC_AIXI_CTW_Agent :=
  { c2Agent with
    context_tree := c2Agent.context_tree.updateHistory [false]
    age := c2Agent.age + 1
    last_update := action_update }

set_option maxHeartbeats 4000000 in
/-- C2, counterexample to the bitwise claim, in both ways.  (i) From
`cAgent` (`action_bits = percept_bits = 1`), the action `1`
(`encode(1,1) = [1]`, full width) and one sampled percept (draw `2`, so
the sampled bit is `0`) followed by `model_revert` restore the history,
`age`, `total_reward` and `last_update` — but the tree keeps the context
child created for the percept (a zero-count node `revert` does not
delete, because deletion is keyed by the reverted symbol `0` while the
child hangs under `1`): `tree_size` is 2 and the root's
`log_probability` is `log(3/4)`, against 1 and `log(1/2)` at the save
point.  (ii) From `c2Agent` with `action_bits = percept_bits = 2`, the
legal action `0` encodes to the single bit `[0]` (`encode` never pads),
yet `model_revert` pops a full 2-bit block for it: the restored history
is `[]`, not the saved `[0]`. -/
theorem agent_model_revert_not_bitwise :
    ((cAgent.model_update_action 1 1).bind (fun a1 =>
        (a1.generate_percept_and_update [2] 0).model_revert 1 1 3
          (mkUndo cAgent))).map
      (fun y => (y.context_tree.tree_size, y.context_tree.root.prob)) =
      some (2, 3/4) ∧
    cAgent.context_tree.tree_size = 1 ∧
    cAgent.context_tree.root.prob = 1/2 ∧
    ((c2Agent.model_update_action 0 2).bind (fun a1 =>
        (a1.generate_percept_and_update [2, 2] 0).model_revert 2 2 3
          (mkUndo c2Agent))).map (fun y => y.context_tree.history) =
      some [] ∧
    c2Agent.context_tree.history = [false] := by
  refine ⟨?_, ?_, ?_, ?_, ?_⟩
  · rw [show cAgent.model_update_action 1 1 = some cAgent1 from rfl,
      Option.some_bind]
    norm_num [cAgent, cAgent1, Function.iterate_one, Function.iterate_succ, Function.iterate_zero,
      mkUndo, MC_AIXI_CTW_Agent.model_revert, modelRevertLoop,
      MC_AIXI_CTW_Agent.generate_percept_and_update,
      MC_AIXI_CTW_Agent.history_size, percept_update, action_update,
      CTWContextTree.generateRandomSymbolsAndUpdate, CTWContextTree.predictVal,
      CTWContextTree.predictTree, CTWContextTree.revertHistory,
      CTWContextTree.updateHistory, CTWContextTree.update,
      CTWContextTree.revert, CTWContextTree.update1, CTWContextTree.revert1,
      CTWContextTree.create, updateContextUpdate, updateContextRevert,
      CTWContextTreeNode.updateNode, CTWContextTreeNode.revertNode,
      CTWContextTreeNode.updateLogProbability, CTWContextTreeNode.isLeafNode,
      CTWContextTreeNode.childProbProduct, CTWContextTreeNode.ktMultiplier,
      CTWContextTreeNode.symbolCount, CTWContextTreeNode.visits,
      CTWContextTreeNode.child, CTWContextTreeNode.setChild,
      CTWContextTreeNode.c0, CTWContextTreeNode.c1, CTWContextTreeNode.kt,
      CTWContextTreeNode.prob, CTWContextTreeNode.child0,
      CTWContextTreeNode.child1, CTWContextTreeNode.size, freshNode]
  · norm_num [cAgent, Function.iterate_one, Function.iterate_succ, Function.iterate_zero,
      mkUndo, MC_AIXI_CTW_Agent.model_revert, modelRevertLoop,
      MC_AIXI_CTW_Agent.generate_percept_and_update,
      MC_AIXI_CTW_Agent.history_size, percept_update, action_update,
      CTWContextTree.generateRandomSymbolsAndUpdate, CTWContextTree.predictVal,
      CTWContextTree.predictTree, CTWContextTree.revertHistory,
      CTWContextTree.updateHistory, CTWContextTree.update,
      CTWContextTree.revert, CTWContextTree.update1, CTWContextTree.revert1,
      CTWContextTree.create, updateContextUpdate, updateContextRevert,
      CTWContextTreeNode.updateNode, CTWContextTreeNode.revertNode,
      CTWContextTreeNode.updateLogProbability, CTWContextTreeNode.isLeafNode,
      CTWContextTreeNode.childProbProduct, CTWContextTreeNode.ktMultiplier,
      CTWContextTreeNode.symbolCount, CTWContextTreeNode.visits,
      CTWContextTreeNode.child, CTWContextTreeNode.setChild,
      CTWContextTreeNode.c0, CTWContextTreeNode.c1, CTWContextTreeNode.kt,
      CTWContextTreeNode.prob, CTWContextTreeNode.child0,
      CTWContextTreeNode.child1, CTWContextTreeNode.size, freshNode]
  · norm_num [cAgent, Function.iterate_one, Function.iterate_succ, Function.iterate_zero,
      mkUndo, MC_AIXI_CTW_Agent.model_revert, modelRevertLoop,
      MC_AIXI_CTW_Agent.generate_percept_and_update,
      MC_AIXI_CTW_Agent.history_size, percept_update, action_update,
      CTWContextTree.generateRandomSymbolsAndUpdate, CTWContextTree.predictVal,
      CTWContextTree.predictTree, CTWContextTree.revertHistory,
      CTWContextTree.updateHistory, CTWContextTree.update,
      CTWContextTree.revert, CTWContextTree.update1, CTWContextTree.revert1,
      CTWContextTree.create, updateContextUpdate, updateContextRevert,
      CTWContextTreeNode.updateNode, CTWContextTreeNode.revertNode,
      CTWContextTreeNode.updateLogProbability, CTWContextTreeNode.isLeafNode,
      CTWContextTreeNode.childProbProduct, CTWContextTreeNode.ktMultiplier,
      CTWContextTreeNode.symbolCount, CTWContextTreeNode.visits,
      CTWContextTreeNode.child, CTWContextTreeNode.setChild,
      CTWContextTreeNode.c0, CTWContextTreeNode.c1, CTWContextTreeNode.kt,
      CTWContextTreeNode.prob, CTWContextTreeNode.child0,
      CTWContextTreeNode.child1, CTWContextTreeNode.size, freshNode]
  · rw [show c2Agent.model_update_action 0 2 = some c2Agent1 from rfl,
      Option.some_bind]
    norm_num [c2Agent, c2Agent1, Function.iterate_one, Function.iterate_succ, Function.iterate_zero,
      mkUndo, MC_AIXI_CTW_Agent.model_revert, modelRevertLoop,
      MC_AIXI_CTW_Agent.generate_percept_and_update,
      MC_AIXI_CTW_Agent.history_size, percept_update, action_update,
      CTWContextTree.generateRandomSymbolsAndUpdate, CTWContextTree.predictVal,
      CTWContextTree.predictTree, CTWContextTree.revertHistory,
      CTWContextTree.updateHistory, CTWContextTree.update,
      CTWContextTree.revert, CTWContextTree.update1, CTWContextTree.revert1,
      CTWContextTree.create, updateContextUpdate, updateContextRevert,
      CTWContextTreeNode.updateNode, CTWContextTreeNode.revertNode,
      CTWContextTreeNode.updateLogProbability, CTWContextTreeNode.isLeafNode,
      CTWContextTreeNode.childProbProduct, CTWContextTreeNode.ktMultiplier,
      CTWContextTreeNode.symbolCount, CTWContextTreeNode.visits,
      CTWContextTreeNode.child, CTWContextTreeNode.setChild,
      CTWContextTreeNode.c0, CTWContextTreeNode.c1, CTWContextTreeNode.kt,
      CTWContextTreeNode.prob, CTWContextTreeNode.child0,
      CTWContextTreeNode.child1, CTWContextTreeNode.size, freshNode]
  · norm_num [c2Agent, Function.iterate_one, Function.iterate_succ, Function.iterate_zero,
      mkUndo, MC_AIXI_CTW_Agent.model_revert, modelRevertLoop,
      MC_AIXI_CTW_Agent.generate_percept_and_update,
      MC_AIXI_CTW_Agent.history_size, percept_update, action_update,
      CTWContextTree.generateRandomSymbolsAndUpdate, CTWContextTree.predictVal,
      CTWContextTree.predictTree, CTWContextTree.revertHistory,
      CTWContextTree.updateHistory, CTWContextTree.update,
      CTWContextTree.revert, CTWContextTree.update1, CTWContextTree.revert1,
      CTWContextTree.create, updateContextUpdate, updateContextRevert,
      CTWContextTreeNode.updateNode, CTWContextTreeNode.revertNode,
      CTWContextTreeNode.updateLogProbability, CTWContextTreeNode.isLeafNode,
      CTWContextTreeNode.childProbProduct, CTWContextTreeNode.ktMultiplier,
      CTWContextTreeNode.symbolCount, CTWContextTreeNode.visits,
      CTWContextTreeNode.child, CTWContextTreeNode.setChild,
      CTWContextTreeNode.c0, CTWContextTreeNode.c1, CTWContextTreeNode.kt,
      CTWContextTreeNode.prob, CTWContextTreeNode.child0,
      CTWContextTreeNode.child1, CTWContextTreeNode.size, freshNode]
